import Mathlib

/-!
Verification of the AG-UI Rust SDK core (client run engine, event verifier,
tool-call filter middleware, state manager, identifier types) against its
natural-language specification.

The Rust sources are embedded shallowly:
* machine state is passed explicitly,
* fallible operations return `Except` / `Option`,
* `HashSet<String>` fields are modelled as duplicate-free `List String`
  with insert-if-absent and erase,
* JSON values (`serde_json::Value`) are modelled by the inductive `Json`
  below, with numbers restricted to integers (no claim depends on float
  semantics),
* the external `json_patch` crate (RFC 6902) is modelled by `jsonPatch`
  over explicit pointer-token lists (the `test` operation and leading-zero
  index details are not needed by any claim and are omitted).
-/

set_option maxHeartbeats 1000000

/-- JSON values, mirroring `serde_json::Value`. Numbers are modelled as
integers; objects as association lists in insertion order. -/
inductive Json where
  | null : Json
  | bool (b : Bool) : Json
  | num (n : Int) : Json
  | str (s : String) : Json
  | arr (elems : List Json) : Json
  | obj (fields : List (String × Json)) : Json

/-- An RFC 6902 patch operation (`json_patch::PatchOperation`), with the
JSON-pointer path already split into its tokens. -/
inductive PatchOp where
  | add (path : List String) (value : Json) : PatchOp
  | remove (path : List String) : PatchOp
  | replace (path : List String) (value : Json) : PatchOp
  | move (src : List String) (dest : List String) : PatchOp
  | copy (src : List String) (dest : List String) : PatchOp

/-- Look up a key in a JSON object's field list (first match). -/
def jsonLookup (fields : List (String × Json)) (k : String) : Option Json :=
  match fields with
  | [] => none
  | (k2, v) :: rest => if k2 = k then some v else jsonLookup rest k

/-- Replace the value of an existing key in a JSON object's field list. -/
def jsonSetField (fields : List (String × Json)) (k : String) (v : Json) :
    List (String × Json) :=
  match fields with
  | [] => []
  | (k2, v2) :: rest =>
      if k2 = k then (k2, v) :: rest else (k2, v2) :: jsonSetField rest k v

/-- Replace the value of a key, or append the member if the key is absent. -/
def jsonSetOrInsertField (fields : List (String × Json)) (k : String) (v : Json) :
    List (String × Json) :=
  match fields with
  | [] => [(k, v)]
  | (k2, v2) :: rest =>
      if k2 = k then (k2, v) :: rest else (k2, v2) :: jsonSetOrInsertField rest k v

/-- Remove a key from a JSON object's field list (first match). -/
def jsonRemoveField (fields : List (String × Json)) (k : String) :
    List (String × Json) :=
  match fields with
  | [] => []
  | (k2, v2) :: rest =>
      if k2 = k then rest else (k2, v2) :: jsonRemoveField rest k

/-- Evaluate a JSON pointer (as a token list) against a document. -/
def getPath (j : Json) (path : List String) : Option Json :=
  match path, j with
  | [], _ => some j
  | t :: rest, .obj fields =>
      match jsonLookup fields t with
      | some sub => getPath sub rest
      | none => none
  | t :: rest, .arr xs =>
      match t.toNat? with
      | some i =>
          match xs[i]? with
          | some sub => getPath sub rest
          | none => none
      | none => none
  | _ :: _, _ => none

/-- RFC 6902 `replace`: the target location must already exist. -/
def replaceAt (j : Json) (path : List String) (v : Json) : Option Json :=
  match path, j with
  | [], _ => some v
  | t :: rest, .obj fields =>
      match jsonLookup fields t with
      | some sub =>
          match replaceAt sub rest v with
          | some sub2 => some (.obj (jsonSetField fields t sub2))
          | none => none
      | none => none
  | t :: rest, .arr xs =>
      match t.toNat? with
      | some i =>
          match xs[i]? with
          | some sub =>
              match replaceAt sub rest v with
              | some sub2 => some (.arr (xs.set i sub2))
              | none => none
          | none => none
      | none => none
  | _ :: _, _ => none

/-- RFC 6902 `add`: inserts into objects (replacing an existing member) and
arrays (index at most the length; `-` appends). -/
def addAt (j : Json) (path : List String) (v : Json) : Option Json :=
  match path, j with
  | [], _ => some v
  | [t], .obj fields => some (.obj (jsonSetOrInsertField fields t v))
  | [t], .arr xs =>
      if t = "-" then some (.arr (xs ++ [v]))
      else
        match t.toNat? with
        | some i => if i ≤ xs.length then some (.arr (xs.insertIdx i v)) else none
        | none => none
  | t :: rest, .obj fields =>
      match jsonLookup fields t with
      | some sub =>
          match addAt sub rest v with
          | some sub2 => some (.obj (jsonSetField fields t sub2))
          | none => none
      | none => none
  | t :: rest, .arr xs =>
      match t.toNat? with
      | some i =>
          match xs[i]? with
          | some sub =>
              match addAt sub rest v with
              | some sub2 => some (.arr (xs.set i sub2))
              | none => none
          | none => none
      | none => none
  | _ :: _, _ => none

/-- RFC 6902 `remove`: the target location must exist; the root cannot be
removed. -/
def removeAt (j : Json) (path : List String) : Option Json :=
  match path, j with
  | [], _ => none
  | [t], .obj fields =>
      match jsonLookup fields t with
      | some _ => some (.obj (jsonRemoveField fields t))
      | none => none
  | [t], .arr xs =>
      match t.toNat? with
      | some i => if i < xs.length then some (.arr (xs.eraseIdx i)) else none
      | none => none
  | t :: rest, .obj fields =>
      match jsonLookup fields t with
      | some sub =>
          match removeAt sub rest with
          | some sub2 => some (.obj (jsonSetField fields t sub2))
          | none => none
      | none => none
  | t :: rest, .arr xs =>
      match t.toNat? with
      | some i =>
          match xs[i]? with
          | some sub =>
              match removeAt sub rest with
              | some sub2 => some (.arr (xs.set i sub2))
              | none => none
          | none => none
      | none => none
  | _ :: _, _ => none

/-- Apply one RFC 6902 operation (`json_patch` single-op semantics). -/
def applyOp (j : Json) (op : PatchOp) : Option Json :=
  match op with
  | .add path v => addAt j path v
  | .remove path => removeAt j path
  | .replace path v => replaceAt j path v
  | .move src dest =>
      match getPath j src with
      | some v =>
          match removeAt j src with
          | some j2 => addAt j2 dest v
          | none => none
      | none => none
  | .copy src dest =>
      match getPath j src with
      | some v => addAt j dest v
      | none => none

/-- `json_patch::patch`: apply the operations in order; any failing
operation fails the whole patch. -/
def jsonPatch (j : Json) (ops : List PatchOp) : Option Json :=
  match ops with
  | [] => some j
  | op :: rest =>
      match applyOp j op with
      | some j2 => jsonPatch j2 rest
      | none => none

/-- Error type of the server `StateManager`
(`ag-ui-server/src/state/manager.rs`: `StateError`). -/
inductive StateError where
  | serialization (reason : String) : StateError
  | patchFailed (reason : String) : StateError

/-- `StateManager::apply_patch` (`ag-ui-server/src/state/manager.rs`,
lines 351-372), embedded with explicit state passing: the managed value of
type `S` is serialized (`ser`, modelling `serde_json::to_value`), patched
with `json_patch::patch`, and deserialized back (`deser`, modelling
`serde_json::from_value`). The write guard `*guard = ...` is assigned only
after all three steps succeed, so the pair returned is
(call result, managed state after the call). -/
def applyPatchRun {S : Type} (ser : S → Option Json) (deser : Json → Option S)
    (s : S) (patch : List PatchOp) : Except StateError S × S :=
  match ser s with
  | none => (.error (.serialization "failed to serialize state for patching"), s)
  | some value =>
      match jsonPatch value patch with
      | none => (.error (.patchFailed "patch operation failed"), s)
      | some patched =>
          match deser patched with
          | none => (.error (.serialization "failed to deserialize state after patching"), s)
          | some s2 => (.ok s2, s2)

/-- C9: whenever `StateManager::apply_patch` returns an error (the patch
fails to apply, or serialization either way fails), the managed state is
left exactly as it was before the call; the state changes only on `Ok`. -/
theorem applyPatch_error_leaves_state_unchanged
    (S : Type) (ser : S → Option Json) (deser : Json → Option S)
    (s : S) (patch : List PatchOp) (err : StateError)
    (h : (applyPatchRun ser deser s patch).1 = .error err) :
    (applyPatchRun ser deser s patch).2 = s := by
  unfold applyPatchRun at *
  cases hs : ser s with
  | none => simp [hs]
  | some value =>
      cases hp : jsonPatch value patch with
      | none => simp [hs, hp]
      | some patched =>
          cases hd : deser patched with
          | none => simp [hs, hp, hd]
          | some s2 => simp [hs, hp, hd] at h

/-- Witness for C9: removing the member `x` from the JSON document `null`
fails, and the managed state is observed unchanged. -/
theorem applyPatch_error_leaves_state_unchanged_witness :
    (applyPatchRun some some Json.null [PatchOp.remove ["x"]]).1 =
      .error (.patchFailed "patch operation failed") ∧
    (applyPatchRun some some Json.null [PatchOp.remove ["x"]]).2 = Json.null :=
  ⟨rfl, applyPatch_error_leaves_state_unchanged Json (fun j => some j) (fun j => some j)
    Json.null [PatchOp.remove ["x"]] (.patchFailed "patch operation failed") rfl⟩

/-! ## Identifier types (`ag-ui-core/src/types/ids.rs`, community SDK)

`define_id_type!` generates UUID-backed newtypes (AgentId, ThreadId, RunId,
MessageId). A UUID is modelled as a natural number below `2 ^ 128`; its
canonical string form is the lowercase hyphenated 8-4-4-4-12 hex layout
produced by `uuid::Uuid::to_string`, and `parseUuid` models
`uuid::Uuid::parse_str` on that canonical layout (the only layout the
embedding needs; hex digits are accepted case-insensitively). The
`Uuid::new_v5(&ID_NAMESPACE, s.as_bytes())` hash is an external
deterministic function of the original string; every theorem below is
universally quantified over it (`v5`). -/

/-- The hyphen separating UUID groups. -/
def hyphenChar : Char := '-'

/-- Lowercase hex digit for a value below 16. -/
def hexChar (d : Nat) : Char :=
  if d < 10 then Char.ofNat (48 + d) else Char.ofNat (87 + d)

/-- Value of a hex digit character (case-insensitive), if any. -/
def hexVal (c : Char) : Option Nat :=
  if 48 ≤ c.toNat ∧ c.toNat ≤ 57 then some (c.toNat - 48)
  else if 97 ≤ c.toNat ∧ c.toNat ≤ 102 then some (c.toNat - 87)
  else if 65 ≤ c.toNat ∧ c.toNat ≤ 70 then some (c.toNat - 55)
  else none

/-- `n`-digit zero-padded lowercase hex rendering, most significant first. -/
def hexPad : Nat → Nat → List Char
  | 0, _ => []
  | n + 1, x => hexChar (x / 16 ^ n) :: hexPad n (x % 16 ^ n)

/-- Consume exactly `n` hex digits, most significant first. -/
def parseHex : List Char → Nat → Nat → Option (Nat × List Char)
  | cs, 0, acc => some (acc, cs)
  | [], _ + 1, _ => none
  | c :: cs, n + 1, acc =>
      match hexVal c with
      | some d => parseHex cs n (acc * 16 + d)
      | none => none

/-- Consume one hyphen. -/
def expectHyphen : List Char → Option (List Char)
  | c :: rest => if c = hyphenChar then some rest else none
  | [] => none

/-- Character sequence of the canonical hyphenated form of a 128-bit UUID. -/
def uuidChars (u : Nat) : List Char :=
  hexPad 8 (u / 2 ^ 96) ++ hyphenChar ::
  (hexPad 4 (u / 2 ^ 80 % 2 ^ 16) ++ hyphenChar ::
  (hexPad 4 (u / 2 ^ 64 % 2 ^ 16) ++ hyphenChar ::
  (hexPad 4 (u / 2 ^ 48 % 2 ^ 16) ++ hyphenChar ::
  hexPad 12 (u % 2 ^ 48))))

/-- `uuid::Uuid::to_string`: canonical lowercase hyphenated form. -/
def uuidStringOfNat (u : Nat) : String := String.mk (uuidChars u)

/-- `uuid::Uuid::parse_str` on the canonical hyphenated layout. -/
def parseUuidChars (cs : List Char) : Option Nat :=
  match parseHex cs 8 0 with
  | none => none
  | some (a, cs1) =>
    match expectHyphen cs1 with
    | none => none
    | some cs2 =>
      match parseHex cs2 4 0 with
      | none => none
      | some (b, cs3) =>
        match expectHyphen cs3 with
        | none => none
        | some cs4 =>
          match parseHex cs4 4 0 with
          | none => none
          | some (c, cs5) =>
            match expectHyphen cs5 with
            | none => none
            | some cs6 =>
              match parseHex cs6 4 0 with
              | none => none
              | some (d, cs7) =>
                match expectHyphen cs7 with
                | none => none
                | some cs8 =>
                  match parseHex cs8 12 0 with
                  | none => none
                  | some (e, cs9) =>
                    if cs9 = [] then
                      some ((((a * 2 ^ 16 + b) * 2 ^ 16 + c) * 2 ^ 16 + d) * 2 ^ 48 + e)
                    else none

/-- `uuid::Uuid::parse_str` over a Lean string. -/
def parseUuid (s : String) : Option Nat := parseUuidChars s.data

/-- An ID generated by `define_id_type!`: the internal UUID plus the
original string when it was not a valid UUID. -/
structure IdT where
  uuid : Nat
  raw : Option String
deriving DecidableEq, Repr

/-- `$name::new` (ids.rs lines 56-65): parse as UUID, else coerce through
the deterministic v5 hash, remembering the original string. -/
def IdT.new (v5 : String → Nat) (s : String) : IdT :=
  match parseUuid s with
  | some u => ⟨u, none⟩
  | none => ⟨v5 s, some s⟩

/-- `Serialize` impl (ids.rs lines 100-111): the original string when
coerced, otherwise the canonical UUID string. -/
def IdT.serialize (x : IdT) : String :=
  match x.raw with
  | some original => original
  | none => uuidStringOfNat x.uuid

/-- `Deserialize` impl (ids.rs lines 90-98): read a string, feed `new`. -/
def IdT.deserialize (v5 : String → Nat) (s : String) : IdT := IdT.new v5 s

/-- Manual `PartialEq` impl (ids.rs lines 117-121): compare the UUIDs only. -/
def idEqBool (x y : IdT) : Bool := x.uuid == y.uuid

/-- Manual `Hash` impl (ids.rs lines 126-130): only the UUID is hashed, so
the hash input is a function of `uuid` alone. -/
def idHash (x : IdT) : Nat := x.uuid

/-- The values reachable through the ID constructors: either a plain UUID
(below `2 ^ 128`, no original string) or a coerced non-UUID string whose
internal UUID is its v5 hash. -/
def IdWellFormed (v5 : String → Nat) (x : IdT) : Prop :=
  (x.raw = none ∧ x.uuid < 2 ^ 128) ∨
  (∃ s, x.raw = some s ∧ parseUuid s = none ∧ x.uuid = v5 s)

theorem hexVal_hexChar (d : Nat) (h : d < 16) : hexVal (hexChar d) = some d := by
  interval_cases d <;> rfl

theorem parseHex_hexPad (n : Nat) :
    ∀ (x acc : Nat) (rest : List Char), x < 16 ^ n →
      parseHex (hexPad n x ++ rest) n acc = some (acc * 16 ^ n + x, rest) := by
  induction n with
  | zero =>
      intro x acc rest hx
      have hx0 : x = 0 := Nat.lt_one_iff.mp (by simpa using hx)
      subst hx0
      simp [hexPad, parseHex]
  | succ n ih =>
      intro x acc rest hx
      have hq : x / 16 ^ n < 16 := by
        have : x < 16 * 16 ^ n := by
          have := hx
          rw [pow_succ] at this
          omega
        exact Nat.div_lt_of_lt_mul (by omega)
      have hr : x % 16 ^ n < 16 ^ n := Nat.mod_lt _ (Nat.pos_pow_of_pos n (by norm_num))
      have hsum : x / 16 ^ n * 16 ^ n + x % 16 ^ n = x := Nat.div_add_mod' x (16 ^ n)
      simp only [hexPad, List.cons_append, List.append_eq, parseHex, hexVal_hexChar _ hq]
      rw [ih (x % 16 ^ n) (acc * 16 + x / 16 ^ n) rest hr]
      congr 2
      rw [pow_succ]
      nlinarith [hsum]

theorem parseHex_bound (n : Nat) :
    ∀ (cs rest : List Char) (acc v : Nat),
      parseHex cs n acc = some (v, rest) → v < (acc + 1) * 16 ^ n := by
  induction n with
  | zero =>
      intro cs rest acc v h
      simp [parseHex] at h
      omega
  | succ n ih =>
      intro cs rest acc v h
      match cs with
      | [] => simp [parseHex] at h
      | c :: cs =>
          simp only [parseHex] at h
          cases hv : hexVal c with
          | none => rw [hv] at h; exact absurd h (by simp)
          | some d =>
              rw [hv] at h
              have hd : d < 16 := by
                unfold hexVal at hv
                split at hv
                · simp only [Option.some.injEq] at hv
                  omega
                · split at hv
                  · simp only [Option.some.injEq] at hv
                    omega
                  · split at hv
                    · simp only [Option.some.injEq] at hv
                      omega
                    · exact absurd hv (by simp)
              have := ih cs rest (acc * 16 + d) v h
              have h1 : (acc * 16 + d + 1) * 16 ^ n ≤ (acc + 1) * 16 ^ (n + 1) := by
                rw [pow_succ]
                nlinarith [Nat.pos_pow_of_pos n (show 0 < 16 by norm_num)]
              omega

theorem parseUuid_uuidString (u : Nat) (hu : u < 2 ^ 128) :
    parseUuid (uuidStringOfNat u) = some u := by
  have h16 : (16 : Nat) ^ 8 = 2 ^ 32 := by norm_num
  have ha : u / 2 ^ 96 < 16 ^ 8 := by
    rw [h16]
    exact Nat.div_lt_of_lt_mul (by omega)
  have hb : u / 2 ^ 80 % 2 ^ 16 < 16 ^ 4 := by
    have : (16 : Nat) ^ 4 = 2 ^ 16 := by norm_num
    rw [this]
    exact Nat.mod_lt _ (by norm_num)
  have hc : u / 2 ^ 64 % 2 ^ 16 < 16 ^ 4 := by
    have : (16 : Nat) ^ 4 = 2 ^ 16 := by norm_num
    rw [this]
    exact Nat.mod_lt _ (by norm_num)
  have hd : u / 2 ^ 48 % 2 ^ 16 < 16 ^ 4 := by
    have : (16 : Nat) ^ 4 = 2 ^ 16 := by norm_num
    rw [this]
    exact Nat.mod_lt _ (by norm_num)
  have he : u % 2 ^ 48 < 16 ^ 12 := by
    have : (16 : Nat) ^ 12 = 2 ^ 48 := by norm_num
    rw [this]
    exact Nat.mod_lt _ (by norm_num)
  have hhy : ∀ rest : List Char, expectHyphen (hyphenChar :: rest) = some rest := by
    intro rest
    simp [expectHyphen]
  have e1 := parseHex_hexPad 8 (u / 2 ^ 96) 0
    (hyphenChar :: (hexPad 4 (u / 2 ^ 80 % 2 ^ 16) ++ hyphenChar ::
      (hexPad 4 (u / 2 ^ 64 % 2 ^ 16) ++ hyphenChar ::
      (hexPad 4 (u / 2 ^ 48 % 2 ^ 16) ++ hyphenChar :: hexPad 12 (u % 2 ^ 48))))) ha
  have e2 := parseHex_hexPad 4 (u / 2 ^ 80 % 2 ^ 16) 0
    (hyphenChar :: (hexPad 4 (u / 2 ^ 64 % 2 ^ 16) ++ hyphenChar ::
      (hexPad 4 (u / 2 ^ 48 % 2 ^ 16) ++ hyphenChar :: hexPad 12 (u % 2 ^ 48)))) hb
  have e3 := parseHex_hexPad 4 (u / 2 ^ 64 % 2 ^ 16) 0
    (hyphenChar :: (hexPad 4 (u / 2 ^ 48 % 2 ^ 16) ++ hyphenChar ::
      hexPad 12 (u % 2 ^ 48))) hc
  have e4 := parseHex_hexPad 4 (u / 2 ^ 48 % 2 ^ 16) 0
    (hyphenChar :: hexPad 12 (u % 2 ^ 48)) hd
  have e5 := parseHex_hexPad 12 (u % 2 ^ 48) 0 [] he
  rw [List.append_nil] at e5
  show parseUuidChars (uuidChars u) = some u
  unfold parseUuidChars uuidChars
  simp only [e1, hhy, e2, e3, e4, e5, zero_mul, zero_add, reduceIte]
  congr 1
  have s1 : u / 2 ^ 96 * 2 ^ 16 + u / 2 ^ 80 % 2 ^ 16 = u / 2 ^ 80 := by
    have : u / 2 ^ 80 / 2 ^ 16 = u / 2 ^ 96 := by
      rw [Nat.div_div_eq_div_mul]
      norm_num
    rw [← this]
    exact Nat.div_add_mod' _ _
  have s2 : u / 2 ^ 80 * 2 ^ 16 + u / 2 ^ 64 % 2 ^ 16 = u / 2 ^ 64 := by
    have : u / 2 ^ 64 / 2 ^ 16 = u / 2 ^ 80 := by
      rw [Nat.div_div_eq_div_mul]
      norm_num
    rw [← this]
    exact Nat.div_add_mod' _ _
  have s3 : u / 2 ^ 64 * 2 ^ 16 + u / 2 ^ 48 % 2 ^ 16 = u / 2 ^ 48 := by
    have : u / 2 ^ 48 / 2 ^ 16 = u / 2 ^ 64 := by
      rw [Nat.div_div_eq_div_mul]
      norm_num
    rw [← this]
    exact Nat.div_add_mod' _ _
  have s4 : u / 2 ^ 48 * 2 ^ 48 + u % 2 ^ 48 = u := Nat.div_add_mod' _ _
  rw [s1, s2, s3, s4]

theorem parseUuid_lt (s : String) (u : Nat) (h : parseUuid s = some u) :
    u < 2 ^ 128 := by
  unfold parseUuid parseUuidChars at h
  cases h1 : parseHex s.data 8 0 with
  | none => simp [h1] at h
  | some p1 =>
    obtain ⟨a, cs1⟩ := p1
    simp only [h1] at h
    cases h2 : expectHyphen cs1 with
    | none => simp [h2] at h
    | some cs2 =>
      simp only [h2] at h
      cases h3 : parseHex cs2 4 0 with
      | none => simp [h3] at h
      | some p2 =>
        obtain ⟨b, cs3⟩ := p2
        simp only [h3] at h
        cases h4 : expectHyphen cs3 with
        | none => simp [h4] at h
        | some cs4 =>
          simp only [h4] at h
          cases h5 : parseHex cs4 4 0 with
          | none => simp [h5] at h
          | some p3 =>
            obtain ⟨c, cs5⟩ := p3
            simp only [h5] at h
            cases h6 : expectHyphen cs5 with
            | none => simp [h6] at h
            | some cs6 =>
              simp only [h6] at h
              cases h7 : parseHex cs6 4 0 with
              | none => simp [h7] at h
              | some p4 =>
                obtain ⟨d, cs7⟩ := p4
                simp only [h7] at h
                cases h8 : expectHyphen cs7 with
                | none => simp [h8] at h
                | some cs8 =>
                  simp only [h8] at h
                  cases h9 : parseHex cs8 12 0 with
                  | none => simp [h9] at h
                  | some p5 =>
                    obtain ⟨e, cs9⟩ := p5
                    simp only [h9] at h
                    by_cases hnil : cs9 = []
                    · rw [if_pos hnil] at h
                      simp only [Option.some.injEq] at h
                      have ba := parseHex_bound 8 s.data cs1 0 a h1
                      have bb := parseHex_bound 4 cs2 cs3 0 b h3
                      have bc := parseHex_bound 4 cs4 cs5 0 c h5
                      have bd := parseHex_bound 4 cs6 cs7 0 d h7
                      have be := parseHex_bound 12 cs8 cs9 0 e h9
                      norm_num at ba bb bc bd be
                      subst h
                      norm_num
                      nlinarith [ba, bb, bc, bd, be]
                    · rw [if_neg hnil] at h
                      exact absurd h (by simp)

/-- `$name::new` only produces well-formed IDs. -/
theorem IdT.new_wellFormed (v5 : String → Nat) (s : String) :
    IdWellFormed v5 (IdT.new v5 s) := by
  unfold IdT.new
  cases h : parseUuid s with
  | some u => exact Or.inl ⟨rfl, parseUuid_lt s u h⟩
  | none => exact Or.inr ⟨s, rfl, h, rfl⟩

/-- C10: for every well-formed identifier value (AgentId / ThreadId / RunId /
MessageId) and every deterministic v5 hash function, (1) deserializing the
serialization gives back the identifier exactly; (2) serialization emits the
original string when the identifier was constructed from a non-UUID string,
and the canonical UUID string otherwise; (3) two identifiers constructed from
the same original string are equal under the UUID-only `PartialEq` and have
identical `Hash` input. -/
theorem id_serde_roundtrip_and_uuid_equality (v5 : String → Nat) :
    (∀ x : IdT, IdWellFormed v5 x → IdT.deserialize v5 (IdT.serialize x) = x) ∧
    (∀ s : String, parseUuid s = none → (IdT.new v5 s).serialize = s) ∧
    (∀ (s : String) (u : Nat), parseUuid s = some u →
      (IdT.new v5 s).serialize = uuidStringOfNat u) ∧
    (∀ s : String, idEqBool (IdT.new v5 s) (IdT.new v5 s) = true ∧
      idHash (IdT.new v5 s) = idHash (IdT.new v5 s)) := by
  refine ⟨?_, ?_, ?_, ?_⟩
  · intro x hx
    rcases hx with ⟨hraw, hlt⟩ | ⟨s, hraw, hparse, huuid⟩
    · obtain ⟨u, raw⟩ := x
      simp only at hraw hlt
      subst hraw
      simp only [IdT.serialize, IdT.deserialize, IdT.new, parseUuid_uuidString u hlt]
    · obtain ⟨u, raw⟩ := x
      simp only at hraw huuid
      subst hraw
      subst huuid
      simp only [IdT.serialize, IdT.deserialize, IdT.new, hparse]
  · intro s hparse
    simp only [IdT.new, hparse, IdT.serialize]
  · intro s u hparse
    simp only [IdT.new, hparse, IdT.serialize]
  · intro s
    exact ⟨by simp [idEqBool], rfl⟩

/-- Witness for C10, at the LangGraph-style coerced identifier of the spec's
scenario 6 and with a concrete v5 function: the string is not a UUID, it is
emitted verbatim by serialization, and deserialize ∘ serialize is the
identity on the coerced identifier. -/
theorem id_serde_roundtrip_witness :
    parseUuid "lc_run--019bcffd-726e-7ca1-9708-98f26a168272" = none ∧
    (IdT.new (fun _ => 0) "lc_run--019bcffd-726e-7ca1-9708-98f26a168272").serialize =
      "lc_run--019bcffd-726e-7ca1-9708-98f26a168272" ∧
    IdT.deserialize (fun _ => 0)
        (IdT.serialize (IdT.new (fun _ => 0) "lc_run--019bcffd-726e-7ca1-9708-98f26a168272")) =
      IdT.new (fun _ => 0) "lc_run--019bcffd-726e-7ca1-9708-98f26a168272" :=
  ⟨rfl,
   (id_serde_roundtrip_and_uuid_equality (fun _ => 0)).2.1
     "lc_run--019bcffd-726e-7ca1-9708-98f26a168272" rfl,
   (id_serde_roundtrip_and_uuid_equality (fun _ => 0)).1
     (IdT.new (fun _ => 0) "lc_run--019bcffd-726e-7ca1-9708-98f26a168272")
     (IdT.new_wellFormed (fun _ => 0) "lc_run--019bcffd-726e-7ca1-9708-98f26a168272")⟩

/-! ## Core conversation types (`ag-ui-core`)

Identifiers inside messages and events are modelled as plain strings
compared for equality (the run engine and verifier only ever compare
them; `MessageId`/`ToolCallId` values with equal string form are equal). -/

/-- `FunctionCall` (`types/message.rs`). -/
structure FunctionCall where
  name : String
  arguments : String
deriving DecidableEq, Repr

/-- `ToolCall` (`types/tool.rs`). -/
structure ToolCall where
  id : String
  callType : String
  function : FunctionCall
deriving DecidableEq, Repr

/-- `Message` (`types/message.rs`): five role variants. -/
inductive Message where
  | developer (id : String) (content : String) (name : Option String) : Message
  | system (id : String) (content : String) (name : Option String) : Message
  | assistant (id : String) (content : Option String) (name : Option String)
      (toolCalls : Option (List ToolCall)) : Message
  | user (id : String) (content : String) (name : Option String) : Message
  | tool (id : String) (content : String) (toolCallId : String)
      (error : Option String) : Message
deriving DecidableEq, Repr

/-- `Message::id`. -/
def Message.id : Message → String
  | .developer id _ _ => id
  | .system id _ _ => id
  | .assistant id _ _ _ => id
  | .user id _ _ => id
  | .tool id _ _ _ => id

/-- `Message::content`. -/
def Message.content : Message → Option String
  | .developer _ content _ => some content
  | .system _ content _ => some content
  | .assistant _ content _ _ => content
  | .user _ content _ => some content
  | .tool _ content _ _ => some content

/-- `Message::tool_calls`. -/
def Message.toolCalls : Message → Option (List ToolCall)
  | .assistant _ _ _ toolCalls => toolCalls
  | _ => none

/-- The event model (`ag-ui-core/src/event.rs`): one constructor per
variant, carrying the payload fields the engine and verifier read
(`timestamp`/`rawEvent` base fields are never read by them). -/
inductive Event where
  | runStarted (threadId : String) (runId : String) : Event
  | runFinished (threadId : String) (runId : String) (result : Option Json) : Event
  | runError (message : String) (code : Option String) : Event
  | stepStarted (stepName : String) : Event
  | stepFinished (stepName : String) : Event
  | textMessageStart (messageId : String) (role : String) : Event
  | textMessageContent (messageId : String) (delta : String) : Event
  | textMessageEnd (messageId : String) : Event
  | textMessageChunk (messageId : Option String) (role : Option String)
      (delta : Option String) : Event
  | thinkingStart (title : Option String) : Event
  | thinkingEnd : Event
  | thinkingTextMessageStart : Event
  | thinkingTextMessageContent (delta : String) : Event
  | thinkingTextMessageEnd : Event
  | toolCallStart (toolCallId : String) (toolCallName : String)
      (parentMessageId : Option String) : Event
  | toolCallArgs (toolCallId : String) (delta : String) : Event
  | toolCallEnd (toolCallId : String) : Event
  | toolCallChunk (toolCallId : Option String) (toolCallName : Option String)
      (parentMessageId : Option String) (delta : Option String) : Event
  | toolCallResult (messageId : String) (toolCallId : String) (content : String)
      (role : Option String) : Event
  | stateSnapshot (snapshot : Json) : Event
  | stateDelta (delta : List PatchOp) : Event
  | messagesSnapshot (messages : List Message) : Event
  | raw (event : Json) (source : Option String) : Event
  | custom (name : String) (value : Json) : Event

/-- `event_type() == EventType::RunStarted`. -/
def Event.isRunStarted : Event → Bool
  | .runStarted _ _ => true
  | _ => false

/-- `event_type() == EventType::RunError`. -/
def Event.isRunError : Event → Bool
  | .runError _ _ => true
  | _ => false

/-! ## Event verifier (`ag-ui-client/src/verify.rs`, community SDK) -/

/-- `HashSet::insert`. -/
def setInsert (l : List String) (x : String) : List String :=
  if l.contains x then l else l ++ [x]

/-- `HashSet::remove`. -/
def setRemove (l : List String) (x : String) : List String := l.erase x

/-- The state of `EventVerifier` (verify.rs lines 30-51). -/
structure VerifierState where
  activeMessages : List String
  activeToolCalls : List String
  activeSteps : List String
  runStarted : Bool
  runFinished : Bool
  runError : Bool
  firstEventReceived : Bool
  activeThinking : Bool
  activeThinkingMessage : Bool
deriving DecidableEq, Repr

/-- `EventVerifier::new` (verify.rs lines 61-74). -/
def VerifierState.initial : VerifierState :=
  ⟨[], [], [], false, false, false, false, false, false⟩

/-- The distinguishable rejection causes of `EventVerifier::verify` (each
`Err` return site of verify.rs). -/
inductive VerifyError where
  | runAlreadyErrored : VerifyError
  | runAlreadyFinished : VerifyError
  | firstEventNotRunStarted : VerifyError
  | runStillActive : VerifyError
  | messageAlreadyActive (id : String) : VerifyError
  | noActiveMessage (id : String) : VerifyError
  | toolCallAlreadyActive (id : String) : VerifyError
  | noActiveToolCall (id : String) : VerifyError
  | stepAlreadyActive (name : String) : VerifyError
  | stepNotStarted (name : String) : VerifyError
  | stepsStillActive : VerifyError
  | messagesStillActive : VerifyError
  | toolCallsStillActive : VerifyError
  | thinkingAlreadyActive : VerifyError
  | noActiveThinking : VerifyError
  | thinkingMessageAlreadyActive : VerifyError
  | noActiveThinkingMessage : VerifyError
deriving DecidableEq, Repr

/-- `EventVerifier::reset_run_state` (verify.rs lines 87-96). -/
def resetRunState (v : VerifierState) : VerifierState :=
  { v with
    activeMessages := [], activeToolCalls := [], activeSteps := [],
    activeThinking := false, activeThinkingMessage := false,
    runFinished := false, runError := false, runStarted := true }

/-- The per-variant `match` of `EventVerifier::verify`
(verify.rs lines 161-392). -/
def verifyArm (v : VerifierState) (e : Event) : Except VerifyError VerifierState :=
  match e with
  | .textMessageStart id _ =>
      if v.activeMessages.contains id then .error (.messageAlreadyActive id)
      else .ok { v with activeMessages := setInsert v.activeMessages id }
  | .textMessageContent id _ =>
      if !v.activeMessages.contains id then .error (.noActiveMessage id)
      else .ok v
  | .textMessageEnd id =>
      if !v.activeMessages.contains id then .error (.noActiveMessage id)
      else .ok { v with activeMessages := setRemove v.activeMessages id }
  | .toolCallStart id _ _ =>
      if v.activeToolCalls.contains id then .error (.toolCallAlreadyActive id)
      else .ok { v with activeToolCalls := setInsert v.activeToolCalls id }
  | .toolCallArgs id _ =>
      if !v.activeToolCalls.contains id then .error (.noActiveToolCall id)
      else .ok v
  | .toolCallEnd id =>
      if !v.activeToolCalls.contains id then .error (.noActiveToolCall id)
      else .ok { v with activeToolCalls := setRemove v.activeToolCalls id }
  | .stepStarted name =>
      if v.activeSteps.contains name then .error (.stepAlreadyActive name)
      else .ok { v with activeSteps := setInsert v.activeSteps name }
  | .stepFinished name =>
      if !v.activeSteps.contains name then .error (.stepNotStarted name)
      else .ok { v with activeSteps := setRemove v.activeSteps name }
  | .runStarted _ _ => .ok { v with runStarted := true }
  | .runFinished _ _ _ =>
      if !v.activeSteps.isEmpty then .error .stepsStillActive
      else if !v.activeMessages.isEmpty then .error .messagesStillActive
      else if !v.activeToolCalls.isEmpty then .error .toolCallsStillActive
      else .ok { v with runFinished := true }
  | .runError _ _ => .ok { v with runError := true }
  | .thinkingStart _ =>
      if v.activeThinking then .error .thinkingAlreadyActive
      else .ok { v with activeThinking := true }
  | .thinkingEnd =>
      if !v.activeThinking then .error .noActiveThinking
      else .ok { v with activeThinking := false }
  | .thinkingTextMessageStart =>
      if !v.activeThinking then .error .noActiveThinking
      else if v.activeThinkingMessage then .error .thinkingMessageAlreadyActive
      else .ok { v with activeThinkingMessage := true }
  | .thinkingTextMessageContent _ =>
      if !v.activeThinkingMessage then .error .noActiveThinkingMessage
      else .ok v
  | .thinkingTextMessageEnd =>
      if !v.activeThinkingMessage then .error .noActiveThinkingMessage
      else .ok { v with activeThinkingMessage := false }
  | .textMessageChunk _ _ _ => .ok v
  | .toolCallChunk _ _ _ _ => .ok v
  | .toolCallResult _ _ _ _ => .ok v
  | .stateSnapshot _ => .ok v
  | .stateDelta _ => .ok v
  | .messagesSnapshot _ => .ok v
  | .raw _ _ => .ok v
  | .custom _ _ => .ok v

/-- `EventVerifier::verify` (verify.rs lines 108-395): the run-errored and
run-finished gates, the first-event requirement, the sequential
`RUN_STARTED` rules (with state reset after a finished run), then the
per-variant rules. -/
def verifyStep (v : VerifierState) (e : Event) : Except VerifyError VerifierState :=
  if v.runError then .error .runAlreadyErrored
  else if v.runFinished && !e.isRunError && !e.isRunStarted then
    .error .runAlreadyFinished
  else if !v.firstEventReceived then
    if !e.isRunStarted && !e.isRunError then .error .firstEventNotRunStarted
    else verifyArm { v with firstEventReceived := true } e
  else if e.isRunStarted then
    if v.runStarted && !v.runFinished then .error .runStillActive
    else if v.runFinished then verifyArm (resetRunState v) e
    else verifyArm v e
  else verifyArm v e

/-- Verify a whole event sequence from the initial verifier state. -/
def verifyFold (v : VerifierState) : List Event → Except VerifyError VerifierState
  | [] => .ok v
  | e :: rest =>
      match verifyStep v e with
      | .ok v2 => verifyFold v2 rest
      | .error err => .error err

/-- Is an `Except` an `ok`? -/
def exceptIsOk {ε α : Type} : Except ε α → Bool
  | .ok _ => true
  | .error _ => false

/-- Whether the verifier accepts the whole sequence. -/
def verifierAccepts (events : List Event) : Bool :=
  exceptIsOk (verifyFold VerifierState.initial events)

/-- C6 counterexample: the verifier ACCEPTS a `THINKING_TEXT_MESSAGE_CONTENT`
and a `THINKING_TEXT_MESSAGE_END` arriving after `THINKING_END` has already
cleared `active_thinking`, because verify.rs only consults
`active_thinking_message` for those two variants. The claim predicts the
fifth event of this sequence is rejected; the whole sequence verifies. -/
theorem thinking_content_accepted_after_thinking_end :
    verifierAccepts
      [.runStarted "t" "r", .thinkingStart none, .thinkingTextMessageStart,
       .thinkingEnd, .thinkingTextMessageContent "x", .thinkingTextMessageEnd] = true := by
  rfl

/-- C6 amended: in a live run (not errored, not finished, first event seen),
`THINKING_TEXT_MESSAGE_START` is accepted exactly when `active_thinking` is
set and no thinking message is open, while `THINKING_TEXT_MESSAGE_CONTENT`
and `THINKING_TEXT_MESSAGE_END` are accepted exactly when
`active_thinking_message` is set — irrespective of `active_thinking`. -/
theorem thinking_event_acceptance (v : VerifierState) (delta : String)
    (hErr : v.runError = false) (hFin : v.runFinished = false)
    (hFst : v.firstEventReceived = true) :
    exceptIsOk (verifyStep v .thinkingTextMessageStart) =
      (v.activeThinking && !v.activeThinkingMessage) ∧
    exceptIsOk (verifyStep v (.thinkingTextMessageContent delta)) =
      v.activeThinkingMessage ∧
    exceptIsOk (verifyStep v .thinkingTextMessageEnd) =
      v.activeThinkingMessage := by
  refine ⟨?_, ?_, ?_⟩ <;>
    · simp only [verifyStep, hErr, hFin, hFst, Event.isRunError, Event.isRunStarted,
        Bool.false_and, Bool.and_false, Bool.not_true, Bool.not_false, if_false,
        Bool.false_eq_true, if_neg, verifyArm]
      cases ht : v.activeThinking <;> cases hm : v.activeThinkingMessage <;>
        simp [verifyArm, exceptIsOk, ht, hm]

/-- Witness for the amended C6: a live verifier state whose thinking step is
closed (`active_thinking = false`) but whose thinking message was left open
still accepts `THINKING_TEXT_MESSAGE_CONTENT`. -/
theorem thinking_event_acceptance_witness :
    (⟨[], [], [], true, false, false, true, false, true⟩ :
        VerifierState).activeThinking = false ∧
    exceptIsOk (verifyStep ⟨[], [], [], true, false, false, true, false, true⟩
      (.thinkingTextMessageContent "x")) = true :=
  ⟨rfl,
   ((thinking_event_acceptance ⟨[], [], [], true, false, false, true, false, true⟩
      "x" rfl rfl rfl).2.1).trans rfl⟩

/-- C7 counterexample: a `TEXT_MESSAGE_CONTENT` whose `delta` is the empty
string passes verification (the verifier never inspects `delta`); the claim
predicts the third event of this sequence is refused. -/
theorem empty_delta_text_message_content_accepted :
    verifierAccepts
      [.runStarted "t" "r", .textMessageStart "m1" "assistant",
       .textMessageContent "m1" ""] = true := by
  rfl

/-- C7 amended: the verifier performs no non-emptiness check on
`TEXT_MESSAGE_CONTENT.delta`; in a live run the event is accepted (with the
verifier state unchanged) whenever its `messageId` is active, even with an
empty delta. -/
theorem text_message_content_no_delta_check (v : VerifierState) (id : String)
    (hErr : v.runError = false) (hFin : v.runFinished = false)
    (hFst : v.firstEventReceived = true)
    (hActive : v.activeMessages.contains id = true) :
    verifyStep v (.textMessageContent id "") = .ok v := by
  simp only [verifyStep, hErr, hFin, hFst, Event.isRunError, Event.isRunStarted,
    Bool.false_and, Bool.not_true, Bool.not_false, Bool.false_eq_true, if_neg,
    if_false, verifyArm, hActive]

/-- Witness for the amended C7: the state reached after
`RUN_STARTED, TEXT_MESSAGE_START(m1)` accepts an empty-delta
`TEXT_MESSAGE_CONTENT(m1, "")`. -/
theorem text_message_content_no_delta_check_witness :
    (⟨["m1"], [], [], true, false, false, true, false, false⟩ :
        VerifierState).activeMessages.contains "m1" = true ∧
    verifyStep ⟨["m1"], [], [], true, false, false, true, false, false⟩
      (.textMessageContent "m1" "") =
      .ok ⟨["m1"], [], [], true, false, false, true, false, false⟩ :=
  ⟨rfl,
   text_message_content_no_delta_check
     ⟨["m1"], [], [], true, false, false, true, false, false⟩ "m1" rfl rfl rfl rfl⟩

/-! ## Tool-call filter middleware
(`ag-ui-client/src/middleware/filter_tool_calls.rs`, community SDK)

`FilterToolCallsMiddleware` owns one `blocked_ids: Mutex<HashSet<String>>`
field. `transform` captures `&self`, so every stream transformed by the
same middleware instance reads and writes that same set. The embedding
threads the set explicitly: transforming a stream takes the set the
instance currently holds and returns the set it holds afterwards. Stream
items are `Except`: `Err` items pass through unchanged. -/

/-- `FilterConfig` (filter_tool_calls.rs lines 33-38). -/
inductive FilterConfig where
  | allow (tools : List String) : FilterConfig
  | block (tools : List String) : FilterConfig

/-- `FilterToolCallsMiddleware::should_filter` (lines 114-119). -/
def shouldFilter (cfg : FilterConfig) (toolName : String) : Bool :=
  match cfg with
  | .allow allowed => !allowed.contains toolName
  | .block blocked => blocked.contains toolName

/-- One `filter_map` step of `StreamTransformer::transform`
(lines 124-199): the forwarded item (if any) and the updated blocked set. -/
def filterStep (cfg : FilterConfig) (blocked : List String)
    (item : Except String Event) : Option (Except String Event) × List String :=
  match item with
  | .error e => (some (.error e), blocked)
  | .ok ev =>
      match ev with
      | .toolCallStart id name _ =>
          if shouldFilter cfg name then (none, setInsert blocked id)
          else (some (.ok ev), blocked)
      | .toolCallArgs id _ =>
          if blocked.contains id then (none, blocked) else (some (.ok ev), blocked)
      | .toolCallEnd id =>
          if blocked.contains id then (none, blocked) else (some (.ok ev), blocked)
      | .toolCallResult _ id _ _ =>
          if blocked.contains id then (none, setRemove blocked id)
          else (some (.ok ev), blocked)
      | .toolCallChunk tid _ _ _ =>
          match tid with
          | some id =>
              if blocked.contains id then (none, blocked) else (some (.ok ev), blocked)
          | none => (some (.ok ev), blocked)
      | _ => (some (.ok ev), blocked)

/-- `StreamTransformer::transform` for `FilterToolCallsMiddleware` over a
whole (finite) stream, starting from the blocked set the middleware
instance currently holds. -/
def transformStream (cfg : FilterConfig) (blocked : List String) :
    List (Except String Event) → List (Except String Event) × List String
  | [] => ([], blocked)
  | item :: rest =>
      let (out, b2) := filterStep cfg blocked item
      let (outRest, b3) := transformStream cfg b2 rest
      (match out with
       | some x => x :: outRest
       | none => outRest, b3)

/-- One middleware instance transforming stream `a` and then stream `b`
(the second transform starts from the blocked set left by the first,
because `blocked_ids` lives on the instance): the output of the second
stream. -/
def secondStreamOutput (cfg : FilterConfig) (a b : List (Except String Event)) :
    List (Except String Event) :=
  (transformStream cfg (transformStream cfg [] a).2 b).1

/-- C8 counterexample: with block-list {delete}, a middleware instance that
already transformed stream A = [TOOL_CALL_START(tc1, delete)] DROPS the
event TOOL_CALL_ARGS(tc1) from stream B, while a fresh instance forwards
it — so the set of events dropped from the second stream is NOT independent
of the first stream. -/
theorem filter_blocked_ids_shared_across_streams :
    secondStreamOutput (.block ["delete"])
        [.ok (.toolCallStart "tc1" "delete" none)]
        [.ok (.toolCallArgs "tc1" "x")] = [] ∧
    secondStreamOutput (.block ["delete"]) []
        [.ok (.toolCallArgs "tc1" "x")] = [.ok (.toolCallArgs "tc1" "x")] ∧
    secondStreamOutput (.block ["delete"])
        [.ok (.toolCallStart "tc1" "delete" none)]
        [.ok (.toolCallArgs "tc1" "x")] ≠
      secondStreamOutput (.block ["delete"]) []
        [.ok (.toolCallArgs "tc1" "x")] := by
  refine ⟨rfl, rfl, ?_⟩
  intro h
  rw [show secondStreamOutput (.block ["delete"])
        [.ok (.toolCallStart "tc1" "delete" none)]
        [.ok (.toolCallArgs "tc1" "x")] = [] from rfl] at h
  rw [show secondStreamOutput (.block ["delete"]) []
        [.ok (.toolCallArgs "tc1" "x")] = [.ok (.toolCallArgs "tc1" "x")] from rfl] at h
  exact List.noConfusion h

/-- C8 amended: the blocked-id state is per middleware INSTANCE, not per
stream: the second stream is transformed starting from the blocked set left
behind by the first stream, and any TOOL_CALL_ARGS whose id is in that
carried-over set is dropped from the second stream. -/
theorem filter_blocked_ids_per_instance (cfg : FilterConfig)
    (a b : List (Except String Event)) :
    secondStreamOutput cfg a b =
      (transformStream cfg (transformStream cfg [] a).2 b).1 ∧
    (∀ id delta, (transformStream cfg [] a).2.contains id = true →
      (transformStream cfg (transformStream cfg [] a).2
        [.ok (.toolCallArgs id delta)]).1 = []) := by
  refine ⟨rfl, ?_⟩
  intro id delta hmem
  have hmem2 : id ∈ (transformStream cfg [] a).2 := by simpa using hmem
  simp [transformStream, filterStep, hmem, hmem2]

/-- Witness for the amended C8 at the counterexample's inputs: `tc1` is in
the blocked set carried out of stream A, and the lone
`TOOL_CALL_ARGS(tc1)` stream is filtered to nothing. -/
theorem filter_blocked_ids_per_instance_witness :
    (transformStream (.block ["delete"]) []
        [.ok (.toolCallStart "tc1" "delete" none)]).2.contains "tc1" = true ∧
    (transformStream (.block ["delete"])
        (transformStream (.block ["delete"]) []
          [.ok (.toolCallStart "tc1" "delete" none)]).2
        [.ok (.toolCallArgs "tc1" "x")]).1 = [] :=
  ⟨rfl,
   (filter_blocked_ids_per_instance (.block ["delete"])
      [.ok (.toolCallStart "tc1" "delete" none)]
      [.ok (.toolCallArgs "tc1" "x")]).2 "tc1" "x" rfl⟩

/-! ## Client run engine (`rust-sdk/crates/ag-ui-client`)

`EventHandler::handle_event` (event_handler.rs) is embedded at its default
behavior — the mutations it performs on its own state before consulting
subscribers; with no subscribers registered the subscriber loops contribute
nothing, so the fold below is exactly `handle_event` with an empty
subscriber list. The generic `StateT` is instantiated at the JSON value
state (`serde_json` to/from value is then the identity).
`MessageId::random()` (reached only when a `TOOL_CALL_START` arrives with
no last message and no parent id) is modelled by an explicit `freshId`
parameter; it can be consulted at most once per run because the message
list is never emptied. -/

/-- `AgentError` (agent.rs lines 76-87). -/
inductive AgentError where
  | executionError (message : String) : AgentError
  | configError (message : String) : AgentError
  | serializationError (message : String) : AgentError
deriving DecidableEq, Repr

/-- The run state held by `EventHandler` (event_handler.rs lines 16-26):
messages, state, and the result slot (initialized to JSON null). -/
structure HandlerState where
  messages : List Message
  state : Json
  result : Json

/-- Apply `f` to the last element, as Rust's `last_mut()`; no-op on `[]`. -/
def updateLast {α : Type} : List α → (α → α) → List α
  | [], _ => []
  | [a], f => [f a]
  | a :: b :: rest, f => a :: updateLast (b :: rest) f

/-- `content_mut()` followed by `push_str(delta)` (message.rs lines
313-326): Assistant content is lazily initialized to the empty string. -/
def Message.contentPush (m : Message) (delta : String) : Message :=
  match m with
  | .developer id c n => .developer id (c ++ delta) n
  | .system id c n => .system id (c ++ delta) n
  | .user id c n => .user id (c ++ delta) n
  | .tool id c tcid err => .tool id (c ++ delta) tcid err
  | .assistant id c n tcs => .assistant id (some (c.getD "" ++ delta)) n tcs

/-- `tool_calls_mut()` (lazy-init) followed by `push(tc)` (the
`Event::ToolCallStart` parent-match branch); non-Assistant messages are
unchanged, exactly as `tool_calls_mut()` returns `None` for them. -/
def Message.pushToolCall (m : Message) (tc : ToolCall) : Message :=
  match m with
  | .assistant id c n tcs => .assistant id c n (some (tcs.getD [] ++ [tc]))
  | other => other

/-- The `Event::ToolCallArgs` default mutation on the last message
(event_handler.rs lines 297-306): `tool_calls_mut()` lazily initializes the
Assistant vector, and the delta is appended to the last tool call's
arguments when one exists. -/
def Message.applyToolCallArgsDelta (m : Message) (delta : String) : Message :=
  match m with
  | .assistant id c n tcs =>
      let l := tcs.getD []
      match l.getLast? with
      | some tc0 =>
          .assistant id c n (some (l.dropLast ++
            [⟨tc0.id, tc0.callType, ⟨tc0.function.name, tc0.function.arguments ++ delta⟩⟩]))
      | none => .assistant id c n (some l)
  | other => other

/-- `EventHandler::handle_event` (event_handler.rs lines 87-614), default
behavior (no subscribers): the per-variant mutations of `self.messages`,
`self.state` and `self.result`. Only `TEXT_MESSAGE_START`,
`TEXT_MESSAGE_CONTENT`, `TOOL_CALL_START`, `TOOL_CALL_ARGS`,
`STATE_SNAPSHOT`, `STATE_DELTA` and `RUN_FINISHED` have a default mutation;
all other variants leave the state unchanged. `STATE_DELTA` fails the run
when the JSON patch cannot be applied. -/
def handleEvent (freshId : String) (st : HandlerState) (e : Event) :
    Except AgentError HandlerState :=
  match e with
  | .textMessageStart mid _ =>
      .ok { st with messages := st.messages ++ [.assistant mid (some "") none none] }
  | .textMessageContent _ delta =>
      .ok { st with messages := updateLast st.messages (fun m => m.contentPush delta) }
  | .toolCallStart tcid tcname parent =>
      let newTc : ToolCall := ⟨tcid, "function", ⟨tcname, ""⟩⟩
      match st.messages.getLast? with
      | some last =>
          if some last.id = parent then
            .ok { st with messages := updateLast st.messages (fun m => m.pushToolCall newTc) }
          else .ok st
      | none =>
          .ok { st with messages := st.messages ++ [.assistant (parent.getD freshId) none none none] }
  | .toolCallArgs _ delta =>
      .ok { st with messages := updateLast st.messages (fun m => m.applyToolCallArgsDelta delta) }
  | .stateSnapshot snapshot => .ok { st with state := snapshot }
  | .stateDelta ops =>
      match jsonPatch st.state ops with
      | some newState => .ok { st with state := newState }
      | none => .error (.executionError "Failed to apply state patch")
  | .runFinished _ _ result => .ok { st with result := result.getD Json.null }
  | _ => .ok st

/-- Fold a whole event sequence through `handle_event`. -/
def foldEvents (freshId : String) (st : HandlerState) :
    List Event → Except AgentError HandlerState
  | [] => .ok st
  | e :: rest =>
      match handleEvent freshId st e with
      | .ok st2 => foldEvents freshId st2 rest
      | .error err => .error err

/-- C1 divergence, evaluated: on `TOOL_CALL_START{tc1, "get_temp",
parent=m1}` the handler (a) with no last message creates
`Assistant{id=m1, content=None, tool_calls=None}` and DROPS the constructed
`ToolCall` instead of attaching it; and (b) with a last message whose id
differs from `m1` changes nothing at all — no new Assistant message is
created. The claim (and the spec's scenario 2) expects the new message's
tool_calls to contain `ToolCall{tc1, function:{get_temp, ""}}`. -/
theorem toolCallStart_divergence :
    handleEvent "fresh1" ⟨[], Json.null, Json.null⟩
        (.toolCallStart "tc1" "get_temp" (some "m1")) =
      .ok ⟨[.assistant "m1" none none none], Json.null, Json.null⟩ ∧
    handleEvent "fresh1" ⟨[.assistant "m0" (some "") none none], Json.null, Json.null⟩
        (.toolCallStart "tc1" "get_temp" (some "m1")) =
      .ok ⟨[.assistant "m0" (some "") none none], Json.null, Json.null⟩ :=
  ⟨rfl, rfl⟩

/-! ## `Agent::run_agent` (agent.rs lines 118-167)

The run loop pulls stream items in order. `Ok(event)` is processed by
`EventExt::apply_and_process_event` (event.rs lines 19-44), which for
`RUN_FINISHED` calls `on_run_finished(&e.result.clone().unwrap(), ...)` on
every subscriber — `unwrap()` PANICS when `result` is `None` and at least
one subscriber exists — and yields `e.result.clone().unwrap_or(Null)`; all
other variants yield `Null`. `Err(e)` returns the error immediately (the
`self.on_error(...)` call is commented out, so `on_run_failed` is never
invoked). On normal exhaustion, `new_messages` is the engine's final
message list filtered by the ids captured before the loop. Panics are
modelled as `none`; subscriber hook invocations are recorded as a trace. -/

/-- A recorded subscriber hook invocation. -/
inductive HookCall where
  | onRunFinished (subscriberIdx : Nat) : HookCall
  | onRunFailed (subscriberIdx : Nat) : HookCall
deriving DecidableEq, Repr

/-- Is a hook invocation an `on_run_failed`? -/
def HookCall.isOnRunFailed : HookCall → Bool
  | .onRunFailed _ => true
  | _ => false

/-- `EventExt::apply_and_process_event` (event.rs lines 19-44) with
`numSubscribers` subscribers: `none` models the `unwrap()` panic; otherwise
the produced result value and the subscriber hook calls made. -/
def applyAndProcessEvent (numSubscribers : Nat) (e : Event) :
    Option (Json × List HookCall) :=
  match e with
  | .runFinished _ _ result =>
      if numSubscribers = 0 then some (result.getD Json.null, [])
      else
        match result with
        | none => none
        | some r => some (r, (List.range numSubscribers).map HookCall.onRunFinished)
  | _ => some (Json.null, [])

/-- `RunAgentResult` (agent.rs lines 52-56). -/
structure RunAgentResult where
  result : Json
  newMessages : List Message

/-- The `while let Some(event_result) = stream.next()` loop of `run_agent`:
threads the `result_val` slot, stops at the first `Err` item (returning it
with NO further hook calls), models a panic as `none`. The engine's message
list is never touched inside this loop. -/
def runAgentLoop (n : Nat) (resultVal : Json) :
    List (Except AgentError Event) → Option (Except AgentError Json) × List HookCall
  | [] => (some (.ok resultVal), [])
  | .error e :: _ => (some (.error e), [])
  | .ok ev :: rest =>
      match applyAndProcessEvent n ev with
      | none => (none, [])
      | some (v, calls) =>
          ((runAgentLoop n v rest).1, calls ++ (runAgentLoop n v rest).2)

/-- `Agent::run_agent` (agent.rs lines 118-167): capture the current
message ids, run the loop from a `Null` result slot, and on success return
the final messages (unchanged by the loop) filtered by the captured ids. -/
def runAgentModel (n : Nat) (initialMessages : List Message)
    (events : List (Except AgentError Event)) :
    Option (Except AgentError RunAgentResult) × List HookCall :=
  ((runAgentLoop n Json.null events).1.map (fun r =>
      match r with
      | .error e => .error e
      | .ok v => .ok ⟨v, initialMessages.filter
          (fun m => !(initialMessages.map Message.id).contains m.id)⟩),
   (runAgentLoop n Json.null events).2)

/-- C2 divergence, evaluated: a `RUN_FINISHED` with an absent result PANICS
`run_agent` (via `e.result.clone().unwrap()` inside the subscriber loop) as
soon as one subscriber is registered; only with zero subscribers does the
run complete normally with a `null` result. The claim asserts processing
`RUN_FINISHED` is total and always yields a `null` result when the field is
absent. -/
theorem runFinished_absent_result_panics :
    (runAgentModel 1 [] [.ok (.runFinished "t" "r" none)]).1 = none ∧
    (runAgentModel 0 [] [.ok (.runFinished "t" "r" none)]).1 =
      some (.ok ⟨Json.null, []⟩) :=
  ⟨rfl, rfl⟩

/-- C4 divergence: `run_agent` NEVER invokes `on_run_failed` — on any
stream, error items included, the subscriber hook trace contains no
`on_run_failed` call (the `self.on_error(...)` call in the error branch is
commented out). The claim asserts every subscriber is notified via
`on_run_failed` before a stream error propagates. -/
theorem run_agent_never_calls_on_run_failed (n : Nat) (msgs : List Message)
    (events : List (Except AgentError Event)) :
    (runAgentModel n msgs events).2.filter HookCall.isOnRunFailed = [] := by
  show (runAgentLoop n Json.null events).2.filter HookCall.isOnRunFailed = []
  generalize Json.null = rv
  induction events generalizing rv with
  | nil => rfl
  | cons item rest ih =>
      cases item with
      | error e => rfl
      | ok ev =>
          show ((match applyAndProcessEvent n ev with
            | none => (none, [])
            | some (v, calls) =>
                ((runAgentLoop n v rest).1,
                 calls ++ (runAgentLoop n v rest).2)) :
              Option (Except AgentError Json) × List HookCall).2.filter
              HookCall.isOnRunFailed = []
          cases hap : applyAndProcessEvent n ev with
          | none => simp
          | some pair =>
              obtain ⟨v, calls⟩ := pair
              have hcalls : calls.filter HookCall.isOnRunFailed = [] := by
                cases ev <;> simp only [applyAndProcessEvent] at hap <;>
                  first
                  | (simp only [Option.some.injEq, Prod.mk.injEq] at hap
                     obtain ⟨_, hc⟩ := hap
                     subst hc
                     rfl)
                  | (rename_i result
                     by_cases hn : n = 0
                     · rw [if_pos hn] at hap
                       simp only [Option.some.injEq, Prod.mk.injEq] at hap
                       obtain ⟨_, hc⟩ := hap
                       subst hc
                       rfl
                     · rw [if_neg hn] at hap
                       cases result with
                       | none => exact absurd hap (by simp)
                       | some r =>
                           simp only [Option.some.injEq, Prod.mk.injEq] at hap
                           obtain ⟨_, hc⟩ := hap
                           subst hc
                           simp [List.filter_map, HookCall.isOnRunFailed,
                             Function.comp])
              simp only [List.filter_append, hcalls, List.nil_append, ih]

/-- The specification's `new_messages` (§8): the final message sequence
with every message whose id was present in the initial message list
removed, preserving relative order. -/
def specNewMessages (finalMessages : List Message) (initialIds : List String) :
    List Message :=
  finalMessages.filter (fun m => !initialIds.contains m.id)

/-- C5: whenever `run_agent` completes without a stream error, the
`new_messages` it returns equals the final message sequence minus the
initial ids, order preserved. (In this source snapshot the run loop never
mutates the engine's message list — the returned mutations are dropped and
`apply_mutation` is never called — so the final message sequence equals the
initial one and `new_messages` is moreover always empty.) -/
theorem run_agent_new_messages (n : Nat) (initialMessages : List Message)
    (events : List (Except AgentError Event)) (res : RunAgentResult)
    (h : (runAgentModel n initialMessages events).1 = some (.ok res)) :
    res.newMessages = specNewMessages initialMessages (initialMessages.map Message.id) ∧
    res.newMessages = [] := by
  unfold runAgentModel at h
  cases hloop : (runAgentLoop n Json.null events).1 with
  | none => rw [hloop] at h; exact absurd h (by simp)
  | some r =>
      rw [hloop] at h
      cases r with
      | error e => exact absurd h (by simp)
      | ok v =>
          simp only [Option.map_some', Option.some.injEq, Except.ok.injEq] at h
          have hmsgs : res.newMessages = initialMessages.filter
              (fun m => !(initialMessages.map Message.id).contains m.id) := by
            rw [← h]
          constructor
          · exact hmsgs
          · rw [hmsgs]
            apply List.filter_eq_nil_iff.mpr
            intro m hm
            have hmem : m.id ∈ initialMessages.map Message.id :=
              List.mem_map_of_mem Message.id hm
            have hc : (initialMessages.map Message.id).contains m.id :=
              List.contains_iff_exists_mem_beq.mpr ⟨m.id, hmem, by simp⟩
            simp [hc]
            exact ⟨m, hm, rfl⟩

/-- Witness for C5: the simple-text-reply run (spec scenario 1 with no
mutating events) completes with result `"done"` and empty `new_messages`,
which the theorem equates with the spec-side filter. -/
theorem run_agent_new_messages_witness :
    (runAgentModel 0 [.user "u1" "hi" none]
        [.ok (.runStarted "t" "r"), .ok (.runFinished "t" "r" (some (.str "done")))]).1 =
      some (.ok ⟨.str "done", []⟩) ∧
    (⟨.str "done", []⟩ : RunAgentResult).newMessages =
      specNewMessages [.user "u1" "hi" none]
        ([.user "u1" "hi" none].map Message.id) :=
  ⟨rfl,
   (run_agent_new_messages 0 [.user "u1" "hi" none]
      [.ok (.runStarted "t" "r"), .ok (.runFinished "t" "r" (some (.str "done")))]
      ⟨.str "done", []⟩ rfl).1⟩

/-! ## The per-id delta-concatenation invariant (C3)

The run engine's fold appends each `TEXT_MESSAGE_CONTENT.delta` to the LAST
message, ignoring the event's `messageId`, while the verifier tracks active
messages as a set and so accepts interleaved streams for several
simultaneously-open messages. The counterexample below exhibits a
verifier-accepted sequence on which the per-id concatenation invariant
fails; the amended theorem proves the invariant for sequences in which
every `TEXT_MESSAGE_CONTENT` targets the current last message and every
`TEXT_MESSAGE_START` carries a fresh message id. -/

/-- Is `e` a `TEXT_MESSAGE_START` for `id`? -/
def isTmsFor (e : Event) (id : String) : Bool :=
  match e with
  | .textMessageStart mid _ => mid == id
  | _ => false

/-- The delta of `e` when it is a `TEXT_MESSAGE_CONTENT` for `id`. -/
def tmcDeltaFor (e : Event) (id : String) : Option String :=
  match e with
  | .textMessageContent mid delta => if mid == id then some delta else none
  | _ => none

/-- Does the sequence contain a `TEXT_MESSAGE_START` for `id`? -/
def tmsIn (events : List Event) (id : String) : Bool :=
  events.any (fun e => isTmsFor e id)

/-- Does the sequence contain a `TEXT_MESSAGE_CONTENT` for `id`? -/
def tmcIn (events : List Event) (id : String) : Bool :=
  events.any (fun e => (tmcDeltaFor e id).isSome)

/-- Concatenate a list of strings in order. -/
def joinAll : List String → String
  | [] => ""
  | s :: rest => s ++ joinAll rest

/-- The concatenation, in arrival order, of the deltas of all
`TEXT_MESSAGE_CONTENT` events of the sequence carrying `id`. -/
def concatDeltas (events : List Event) (id : String) : String :=
  joinAll (events.filterMap (fun e => tmcDeltaFor e id))

/-- The ids of a message list, in order. -/
def msgIds (msgs : List Message) : List String := msgs.map Message.id

/-- The message with the given id (first match). -/
def findById (msgs : List Message) (id : String) : Option Message :=
  msgs.find? (fun m => m.id == id)

/-- The side conditions of the amended C3, checked against the fold state
the event meets: a `TEXT_MESSAGE_CONTENT` must target the current last
message, and a `TEXT_MESSAGE_START` must carry a fresh id. All other
events are unrestricted. -/
def stepGuard (st : HandlerState) (e : Event) : Bool :=
  match e with
  | .textMessageContent mid _ =>
      match st.messages.getLast? with
      | some m => m.id == mid
      | none => false
  | .textMessageStart mid _ => !(msgIds st.messages).contains mid
  | _ => true

/-- `foldEvents` restricted by `stepGuard`; `none` when a guard fails or
the handler errors. -/
def guardedFold (freshId : String) (st : HandlerState) :
    List Event → Option HandlerState
  | [] => some st
  | e :: rest =>
      if stepGuard st e then
        match handleEvent freshId st e with
        | .ok st2 => guardedFold freshId st2 rest
        | .error _ => none
      else none

/-- C3 counterexample: the verifier accepts this interleaving of two
simultaneously active text messages (its own test suite contains the same
shape), yet after the fold the message `m1` has content `""` while the
concatenation of the deltas carrying id `m1` is `"a"` — the delta went to
the last message `m2`. -/
def c3CounterSeq : List Event :=
  [.runStarted "t" "r", .textMessageStart "m1" "assistant",
   .textMessageStart "m2" "assistant", .textMessageContent "m1" "a",
   .textMessageEnd "m1", .textMessageEnd "m2", .runFinished "t" "r" none]

/-- C3 fails as stated: on the verifier-accepted `c3CounterSeq`, message
`m1`'s content after the fold is `""`, not the concatenation `"a"` of the
deltas carrying id `m1`. -/
theorem interleaved_active_messages_break_concat :
    verifierAccepts c3CounterSeq = true ∧
    foldEvents "f" ⟨[], Json.null, Json.null⟩ c3CounterSeq =
      .ok ⟨[.assistant "m1" (some "") none none, .assistant "m2" (some "a") none none],
           Json.null, Json.null⟩ ∧
    concatDeltas c3CounterSeq "m1" = "a" ∧
    (findById [.assistant "m1" (some "") none none,
               .assistant "m2" (some "a") none none] "m1").map Message.content =
      some (some "") ∧
    (some (some "") : Option (Option String)) ≠ some (some "a") :=
  ⟨rfl, rfl, rfl, rfl, by decide⟩

theorem joinAll_append (l1 l2 : List String) :
    joinAll (l1 ++ l2) = joinAll l1 ++ joinAll l2 := by
  induction l1 with
  | nil => simp [joinAll]
  | cons s rest ih => simp [joinAll, ih, String.append_assoc]

theorem concatDeltas_snoc (xs : List Event) (x : Event) (id : String) :
    concatDeltas (xs ++ [x]) id =
      concatDeltas xs id ++ (tmcDeltaFor x id).getD "" := by
  unfold concatDeltas
  rw [List.filterMap_append, joinAll_append]
  congr 1
  cases h : tmcDeltaFor x id <;> simp [joinAll, h]

theorem tmsIn_snoc (xs : List Event) (x : Event) (id : String) :
    tmsIn (xs ++ [x]) id = (tmsIn xs id || isTmsFor x id) := by
  unfold tmsIn
  simp

theorem tmcIn_snoc (xs : List Event) (x : Event) (id : String) :
    tmcIn (xs ++ [x]) id = (tmcIn xs id || (tmcDeltaFor x id).isSome) := by
  unfold tmcIn
  simp

theorem concatDeltas_eq_empty_of_not_tmcIn (xs : List Event) (id : String)
    (h : tmcIn xs id = false) : concatDeltas xs id = "" := by
  unfold tmcIn at h
  unfold concatDeltas
  have : xs.filterMap (fun e => tmcDeltaFor e id) = [] := by
    apply List.filterMap_eq_nil_iff.mpr
    intro e he
    cases hd : tmcDeltaFor e id with
    | none => rfl
    | some d =>
        exfalso
        have : xs.any (fun e => (tmcDeltaFor e id).isSome) = true :=
          List.any_eq_true.mpr ⟨e, he, by simp [hd]⟩
        rw [this] at h
        exact Bool.true_eq_false.mp h
  rw [this]
  rfl

theorem verifyFold_append (v : VerifierState) (xs : List Event) (x : Event) :
    verifyFold v (xs ++ [x]) =
      match verifyFold v xs with
      | .ok v2 => verifyStep v2 x
      | .error e => .error e := by
  induction xs generalizing v with
  | nil =>
      simp only [List.nil_append, verifyFold]
      cases verifyStep v x <;> rfl
  | cons e rest ih =>
      simp only [List.cons_append, verifyFold]
      cases verifyStep v e with
      | ok v2 => exact ih v2
      | error err => rfl

theorem guardedFold_append (f : String) (st : HandlerState) (xs : List Event)
    (x : Event) :
    guardedFold f st (xs ++ [x]) =
      match guardedFold f st xs with
      | some st2 =>
          if stepGuard st2 x then
            match handleEvent f st2 x with
            | .ok st3 => some st3
            | .error _ => none
          else none
      | none => none := by
  induction xs generalizing st with
  | nil =>
      simp only [List.nil_append, guardedFold]
  | cons e rest ih =>
      simp only [List.cons_append, guardedFold]
      by_cases hg : stepGuard st e = true
      · rw [if_pos hg, if_pos hg]
        cases handleEvent f st e with
        | ok st2 => exact ih st2
        | error err => rfl
      · rw [if_neg hg, if_neg hg]

theorem contains_iff_mem (l : List String) (a : String) :
    l.contains a = true ↔ a ∈ l := by
  rw [List.contains_iff_exists_mem_beq]
  constructor
  · rintro ⟨b, hb, hab⟩
    have : a = b := by simpa using hab
    rw [this]
    exact hb
  · intro h
    exact ⟨a, h, by simp⟩

theorem setInsert_mem (l : List String) (x y : String) :
    y ∈ setInsert l x ↔ y ∈ l ∨ y = x := by
  unfold setInsert
  by_cases h : l.contains x = true
  · rw [if_pos h]
    constructor
    · exact Or.inl
    · rintro (hy | rfl)
      · exact hy
      · exact (contains_iff_mem l y).mp h
  · rw [if_neg h]
    simp

/-- `verify`'s per-variant rules only add to `active_messages` through the
`TEXT_MESSAGE_START` arm: any id active afterwards was active before or is
the id of this event when it is a `TEXT_MESSAGE_START`. -/
theorem verifyArm_active (v v2 : VerifierState) (e : Event) (id : String)
    (h : verifyArm v e = .ok v2)
    (hid : v2.activeMessages.contains id = true) :
    v.activeMessages.contains id = true ∨ isTmsFor e id = true := by
  cases e
  case textMessageStart mid role =>
      simp only [verifyArm] at h
      split at h
      · exact Except.noConfusion h
      · simp only [Except.ok.injEq] at h
        subst h
        have hmem := (contains_iff_mem _ _).mp hid
        rcases (setInsert_mem _ _ _).mp hmem with hy | heq
        · exact Or.inl ((contains_iff_mem _ _).mpr hy)
        · subst heq
          exact Or.inr (by simp [isTmsFor])
  case textMessageEnd mid =>
      simp only [verifyArm] at h
      split at h
      · exact Except.noConfusion h
      · simp only [Except.ok.injEq] at h
        subst h
        have hmem := (contains_iff_mem _ _).mp hid
        have : id ∈ v.activeMessages := List.mem_of_mem_erase hmem
        exact Or.inl ((contains_iff_mem _ _).mpr this)
  all_goals
    simp only [verifyArm] at h
  all_goals
    repeat' split at h
  all_goals
    first
    | exact Except.noConfusion h
    | (simp only [Except.ok.injEq] at h
       subst h
       exact Or.inl hid)

/-- Lift `verifyArm_active` through the gates of `verify`: the reset path
(new run after `RUN_FINISHED`) clears the active set, the other paths keep
it. -/
theorem verifyStep_active (v v2 : VerifierState) (e : Event) (id : String)
    (h : verifyStep v e = .ok v2)
    (hid : v2.activeMessages.contains id = true) :
    v.activeMessages.contains id = true ∨ isTmsFor e id = true := by
  unfold verifyStep at h
  repeat' split at h
  all_goals
    first
    | exact Except.noConfusion h
    | (rcases verifyArm_active _ _ _ _ h hid with h1 | h2
       · first
         | exact Or.inl h1
         | exact absurd h1 (by simp [resetRunState, List.contains, List.elem])
       · exact Or.inr h2)

/-- Verifier invariant: every id in `active_messages` after an accepted
sequence was introduced by some `TEXT_MESSAGE_START` of the sequence. -/
theorem verifyFold_active_subset (events : List Event) :
    ∀ (vs : VerifierState),
      verifyFold VerifierState.initial events = .ok vs →
      ∀ id, vs.activeMessages.contains id = true → tmsIn events id = true := by
  induction events using List.reverseRecOn with
  | nil =>
      intro vs h id hid
      simp only [verifyFold, Except.ok.injEq] at h
      subst h
      exact absurd hid (by simp [VerifierState.initial, List.contains, List.elem])
  | append_singleton xs x ih =>
      intro vs h id hid
      rw [verifyFold_append] at h
      cases hpre : verifyFold VerifierState.initial xs with
      | error err =>
          rw [hpre] at h
          exact Except.noConfusion h
      | ok v2 =>
          rw [hpre] at h
          rcases verifyStep_active v2 vs x id h hid with h1 | h2
          · rw [tmsIn_snoc, ih v2 hpre id h1]
            rfl
          · rw [tmsIn_snoc, h2]
            simp

/-- An accepted `TEXT_MESSAGE_CONTENT` requires its id to be active. -/
theorem verifyStep_tmc_active (v v2 : VerifierState) (mid delta : String)
    (h : verifyStep v (.textMessageContent mid delta) = .ok v2) :
    v.activeMessages.contains mid = true := by
  unfold verifyStep at h
  simp only [Event.isRunStarted, Event.isRunError, Bool.not_false, Bool.not_true,
    Bool.and_true, Bool.true_and, Bool.and_false, Bool.false_and, reduceIte] at h
  repeat' split at h
  all_goals
    first
    | exact Except.noConfusion h
    | (simp only [verifyArm] at h
       split at h
       · exact Except.noConfusion h
       · rename_i hcond
         simpa using hcond)

/-- For accepted sequences, every `TEXT_MESSAGE_CONTENT` id has an earlier
`TEXT_MESSAGE_START` with the same id. -/
theorem tmc_implies_tms (events : List Event) :
    ∀ (vs : VerifierState),
      verifyFold VerifierState.initial events = .ok vs →
      ∀ id, tmcIn events id = true → tmsIn events id = true := by
  induction events using List.reverseRecOn with
  | nil =>
      intro vs h id htmc
      simp [tmcIn] at htmc
  | append_singleton xs x ih =>
      intro vs h id htmc
      rw [verifyFold_append] at h
      cases hpre : verifyFold VerifierState.initial xs with
      | error err =>
          rw [hpre] at h
          exact Except.noConfusion h
      | ok v2 =>
          rw [hpre] at h
          rw [tmcIn_snoc] at htmc
          rw [tmsIn_snoc]
          rcases (by simpa using htmc :
              tmcIn xs id = true ∨ (tmcDeltaFor x id).isSome = true) with h1 | h2
          · rw [ih v2 hpre id h1]
            rfl
          · cases x
            case textMessageContent mid delta =>
              simp only [tmcDeltaFor] at h2
              by_cases hmi : (mid == id) = true
              · have hmid : mid = id := by simpa using hmi
                subst hmid
                have hact := verifyStep_tmc_active v2 vs mid delta h
                have htms := verifyFold_active_subset xs v2 hpre mid hact
                rw [htms]
                rfl
              · rw [if_neg hmi] at h2
                exact absurd h2 (by simp)
            all_goals
              simp only [tmcDeltaFor] at h2
            all_goals
              exact absurd h2 (by simp)

theorem updateLast_append_singleton {α : Type} (l : List α) (a : α) (f : α → α) :
    updateLast (l ++ [a]) f = l ++ [f a] := by
  induction l with
  | nil => rfl
  | cons x rest ih =>
      cases rest with
      | nil => rfl
      | cons y rest2 =>
          show x :: updateLast ((y :: rest2) ++ [a]) f = x :: ((y :: rest2) ++ [f a])
          rw [ih]

theorem contentPush_id (m : Message) (delta : String) :
    (m.contentPush delta).id = m.id := by
  cases m <;> rfl

theorem pushToolCall_id (m : Message) (tc : ToolCall) :
    (m.pushToolCall tc).id = m.id := by
  cases m <;> rfl

theorem pushToolCall_assistant (i : String) (c : Option String) (nm : Option String)
    (tcs : Option (List ToolCall)) (tc : ToolCall) :
    (Message.assistant i c nm tcs).pushToolCall tc =
      .assistant i c nm (some (tcs.getD [] ++ [tc])) := rfl

theorem applyToolCallArgsDelta_id (m : Message) (delta : String) :
    (m.applyToolCallArgsDelta delta).id = m.id := by
  cases m with
  | assistant i c nm tcs =>
      simp only [Message.applyToolCallArgsDelta]
      cases (tcs.getD []).getLast? <;> rfl
  | developer i c nm => rfl
  | system i c nm => rfl
  | user i c nm => rfl
  | tool i c tcid err => rfl

theorem applyToolCallArgsDelta_assistant (i : String) (c : Option String)
    (nm : Option String) (tcs : Option (List ToolCall)) (delta : String) :
    ∃ tcs2, (Message.assistant i c nm tcs).applyToolCallArgsDelta delta =
      .assistant i c nm tcs2 := by
  simp only [Message.applyToolCallArgsDelta]
  cases (tcs.getD []).getLast? with
  | some tc0 => exact ⟨_, rfl⟩
  | none => exact ⟨_, rfl⟩

theorem findById_eq_none_of_not_mem (msgs : List Message) (id : String)
    (h : id ∉ msgIds msgs) : findById msgs id = none := by
  apply List.find?_eq_none.mpr
  intro m hm hbeq
  exact h (List.mem_map.mpr ⟨m, hm, by simpa using hbeq⟩)

/-- The shape of the found message is preserved when the last message of
the list is rewritten by a function that keeps ids and keeps an Assistant's
id and content. -/
theorem findById_last_shape (ys : List Message) (m : Message)
    (g : Message → Message) (hgid : (g m).id = m.id)
    (hgas : ∀ i c nm tcs, m = .assistant i c nm tcs →
      ∃ nm2 tcs2, g m = .assistant i c nm2 tcs2)
    (id : String) (s : String)
    (hfound : ∃ nm tcs, findById (ys ++ [m]) id =
      some (.assistant id (some s) nm tcs)) :
    ∃ nm tcs, findById (ys ++ [g m]) id =
      some (.assistant id (some s) nm tcs) := by
  obtain ⟨nm, tcs, hf⟩ := hfound
  unfold findById at hf ⊢
  rw [List.find?_append] at hf ⊢
  cases hys : ys.find? (fun mm => mm.id == id) with
  | some a =>
      rw [hys] at hf
      rw [Option.or_some] at hf ⊢
      exact ⟨nm, tcs, hf⟩
  | none =>
      rw [hys] at hf
      rw [Option.none_or] at hf ⊢
      by_cases hpm : (m.id == id) = true
      · rw [@List.find?_cons_of_pos Message (fun mm => mm.id == id) m [] hpm] at hf
        simp only [Option.some.injEq] at hf
        obtain ⟨nm2, tcs2, hg⟩ := hgas id (some s) nm tcs hf
        have hpg : ((g m).id == id) = true := by rw [hgid]; exact hpm
        rw [@List.find?_cons_of_pos Message (fun mm => mm.id == id) (g m) [] hpg]
        exact ⟨nm2, tcs2, by rw [hg]⟩
      · rw [@List.find?_cons_of_neg Message (fun mm => mm.id == id) m [] hpm,
          List.find?_nil] at hf
        exact Option.noConfusion hf

/-- Stepping the invariant over an event that neither is a
`TEXT_MESSAGE_START`/`TEXT_MESSAGE_CONTENT` nor changes the messages. -/
theorem c3_preserve (xs : List Event) (x : Event) (st2 st3 : HandlerState)
    (hmsg : st3.messages = st2.messages)
    (hnotms : ∀ id, isTmsFor x id = false)
    (hnotmc : ∀ id, tmcDeltaFor x id = none)
    (ihN : (msgIds st2.messages).Nodup)
    (ihM : ∀ id, tmsIn xs id = true → id ∈ msgIds st2.messages)
    (ihC : ∀ id, tmsIn xs id = true → ∃ nm tcs, findById st2.messages id =
      some (.assistant id (some (concatDeltas xs id)) nm tcs)) :
    (msgIds st3.messages).Nodup ∧
    (∀ id, tmsIn (xs ++ [x]) id = true → id ∈ msgIds st3.messages) ∧
    (∀ id, tmsIn (xs ++ [x]) id = true →
      ∃ nm tcs, findById st3.messages id =
        some (.assistant id (some (concatDeltas (xs ++ [x]) id)) nm tcs)) := by
  refine ⟨by rw [hmsg]; exact ihN, ?_, ?_⟩
  · intro id hid
    rw [tmsIn_snoc, hnotms id, Bool.or_false] at hid
    rw [hmsg]
    exact ihM id hid
  · intro id hid
    rw [tmsIn_snoc, hnotms id, Bool.or_false] at hid
    rw [hmsg, concatDeltas_snoc, hnotmc id]
    simp only [Option.getD_none, String.append_empty]
    exact ihC id hid

/-- Replacing the last message by one with the same id does not change
lookups for other ids. -/
theorem findById_last_skip (ys : List Message) (m m2 : Message)
    (hgid : m2.id = m.id) (id : String)
    (hne : (m.id == id) = false) :
    findById (ys ++ [m2]) id = findById (ys ++ [m]) id := by
  unfold findById
  have h1 : List.find? (fun mm => mm.id == id) [m] = none := by
    rw [@List.find?_cons_of_neg Message (fun mm => mm.id == id) m [] (by simp [hne]),
      List.find?_nil]
  have h2 : List.find? (fun mm => mm.id == id) [m2] = none := by
    rw [@List.find?_cons_of_neg Message (fun mm => mm.id == id) m2 []
      (by simp [hgid, hne]), List.find?_nil]
  rw [List.find?_append, List.find?_append, h1, h2]

/-- Stepping the invariant over an event that rewrites the last message
with a function preserving ids and preserving an Assistant's id and
content, and that is neither a `TEXT_MESSAGE_START` nor a
`TEXT_MESSAGE_CONTENT` (the `TOOL_CALL_START` parent-match and
`TOOL_CALL_ARGS` cases). -/
theorem c3_step_updateLast (xs : List Event) (x : Event) (ys : List Message)
    (last : Message) (g : Message → Message)
    (hgid : (g last).id = last.id)
    (hgas : ∀ i c nm tcs, last = .assistant i c nm tcs →
      ∃ nm2 tcs2, g last = .assistant i c nm2 tcs2)
    (hnotms : ∀ id, isTmsFor x id = false)
    (hnotmc : ∀ id, tmcDeltaFor x id = none)
    (ihN : (msgIds (ys ++ [last])).Nodup)
    (ihM : ∀ id, tmsIn xs id = true → id ∈ msgIds (ys ++ [last]))
    (ihC : ∀ id, tmsIn xs id = true → ∃ nm tcs, findById (ys ++ [last]) id =
      some (.assistant id (some (concatDeltas xs id)) nm tcs)) :
    (msgIds (ys ++ [g last])).Nodup ∧
    (∀ id, tmsIn (xs ++ [x]) id = true → id ∈ msgIds (ys ++ [g last])) ∧
    (∀ id, tmsIn (xs ++ [x]) id = true →
      ∃ nm tcs, findById (ys ++ [g last]) id =
        some (.assistant id (some (concatDeltas (xs ++ [x]) id)) nm tcs)) := by
  have hids : msgIds (ys ++ [g last]) = msgIds (ys ++ [last]) := by
    unfold msgIds
    rw [List.map_append, List.map_append]
    simp [hgid]
  refine ⟨by rw [hids]; exact ihN, ?_, ?_⟩
  · intro id hid
    rw [tmsIn_snoc, hnotms id, Bool.or_false] at hid
    rw [hids]
    exact ihM id hid
  · intro id hid
    rw [tmsIn_snoc, hnotms id, Bool.or_false] at hid
    rw [concatDeltas_snoc, hnotmc id]
    simp only [Option.getD_none, String.append_empty]
    exact findById_last_shape ys last g hgid hgas id _ (ihC id hid)

/-- The C3 invariant carried along the guarded fold of a verifier-accepted
sequence, starting from an empty message list: message ids are
duplicate-free, every id introduced by a `TEXT_MESSAGE_START` names a
message, and that message is an Assistant whose content is exactly the
concatenation of the deltas for that id so far. -/
theorem c3_invariant (f : String) (events : List Event) :
    ∀ (vs : VerifierState) (st : HandlerState),
      verifyFold VerifierState.initial events = .ok vs →
      guardedFold f ⟨[], Json.null, Json.null⟩ events = some st →
      (msgIds st.messages).Nodup ∧
      (∀ id, tmsIn events id = true → id ∈ msgIds st.messages) ∧
      (∀ id, tmsIn events id = true →
        ∃ nm tcs, findById st.messages id =
          some (.assistant id (some (concatDeltas events id)) nm tcs)) := by
  induction events using List.reverseRecOn with
  | nil =>
      intro vs st hv hg
      simp only [guardedFold, Option.some.injEq] at hg
      subst hg
      refine ⟨by simp [msgIds], ?_, ?_⟩
      · intro id hid
        simp [tmsIn] at hid
      · intro id hid
        simp [tmsIn] at hid
  | append_singleton xs x ih =>
      intro vs st hv hg
      rw [verifyFold_append] at hv
      rw [guardedFold_append] at hg
      cases hvpre : verifyFold VerifierState.initial xs with
      | error err => rw [hvpre] at hv; exact Except.noConfusion hv
      | ok v2 =>
      rw [hvpre] at hv
      cases hgpre : guardedFold f ⟨[], Json.null, Json.null⟩ xs with
      | none => rw [hgpre] at hg; exact Option.noConfusion hg
      | some st2 =>
      rw [hgpre] at hg
      have hstep : verifyStep v2 x = .ok vs := hv
      have hgs : (if stepGuard st2 x then
          match handleEvent f st2 x with
          | .ok st3 => some st3
          | .error _ => none
        else none) = some st := hg
      obtain ⟨ihN, ihM, ihC⟩ := ih v2 st2 hvpre hgpre
      by_cases hguard : stepGuard st2 x = true
      case neg => rw [if_neg hguard] at hgs; exact Option.noConfusion hgs
      case pos =>
      rw [if_pos hguard] at hgs
      cases hhe : handleEvent f st2 x with
      | error err => rw [hhe] at hgs; exact Option.noConfusion hgs
      | ok st3 =>
      rw [hhe] at hgs
      have hst : st3 = st := by simpa using hgs
      subst hst
      cases x
      case textMessageStart mid role =>
        simp only [handleEvent, Except.ok.injEq] at hhe
        subst hhe
        have hfresh : mid ∉ msgIds st2.messages := by
          intro hmem
          have hc : (msgIds st2.messages).contains mid = true :=
            (contains_iff_mem _ _).mpr hmem
          simp only [stepGuard, hc] at hguard
          exact Bool.noConfusion hguard
        refine ⟨?_, ?_, ?_⟩
        · show (msgIds (st2.messages ++ [.assistant mid (some "") none none])).Nodup
          unfold msgIds at ihN ⊢
          rw [List.map_append, List.nodup_append]
          refine ⟨ihN, by simp, ?_⟩
          intro a ha hb
          simp only [List.map_cons, List.map_nil, List.mem_singleton] at hb
          rw [show Message.id (.assistant mid (some "") none none) = mid from rfl] at hb
          subst hb
          exact hfresh ha
        · intro id hid
          rw [tmsIn_snoc] at hid
          show id ∈ msgIds (st2.messages ++ [.assistant mid (some "") none none])
          unfold msgIds
          rw [List.map_append]
          rcases (by simpa using hid :
              tmsIn xs id = true ∨ isTmsFor (.textMessageStart mid role) id = true)
            with h1 | h2
          · exact List.mem_append_left _ (ihM id h1)
          · have hmi : mid = id := by simpa [isTmsFor] using h2
            subst hmi
            apply List.mem_append_right
            simp [Message.id]
        · intro id hid
          rw [tmsIn_snoc] at hid
          show ∃ nm tcs,
            findById (st2.messages ++ [.assistant mid (some "") none none]) id =
              some (.assistant id
                (some (concatDeltas (xs ++ [.textMessageStart mid role]) id)) nm tcs)
          rw [concatDeltas_snoc]
          simp only [tmcDeltaFor, Option.getD_none, String.append_empty]
          by_cases hidm : mid = id
          · subst hidm
            have htms0 : tmsIn xs mid = false := by
              cases h0 : tmsIn xs mid
              · rfl
              · exact absurd (ihM mid h0) hfresh
            have htmc0 : tmcIn xs mid = false := by
              cases h0 : tmcIn xs mid
              · rfl
              · have := tmc_implies_tms xs v2 hvpre mid h0
                rw [htms0] at this
                exact Bool.noConfusion this
            rw [concatDeltas_eq_empty_of_not_tmcIn xs mid htmc0]
            unfold findById
            rw [List.find?_append]
            rw [show List.find? (fun mm => mm.id == mid) st2.messages = none from
              findById_eq_none_of_not_mem st2.messages mid hfresh]
            rw [Option.none_or]
            rw [@List.find?_cons_of_pos Message (fun mm => mm.id == mid)
              (.assistant mid (some "") none none) [] (by simp [Message.id])]
            exact ⟨none, none, rfl⟩
          · have h1 : tmsIn xs id = true := by
              rcases (by simpa using hid :
                  tmsIn xs id = true ∨ isTmsFor (.textMessageStart mid role) id = true)
                with h1 | h2
              · exact h1
              · exact absurd (by simpa [isTmsFor] using h2) hidm
            obtain ⟨nm, tcs, hfind⟩ := ihC id h1
            refine ⟨nm, tcs, ?_⟩
            unfold findById at hfind ⊢
            rw [List.find?_append, hfind, Option.or_some]
      case textMessageContent mid delta =>
        simp only [handleEvent, Except.ok.injEq] at hhe
        simp only [stepGuard] at hguard
        cases hLast : st2.messages.getLast? with
        | none =>
            rw [hLast] at hguard
            exact Bool.noConfusion hguard
        | some m =>
        rw [hLast] at hguard
        obtain ⟨ys, hys⟩ := List.getLast?_eq_some_iff.mp hLast
        have hact := verifyStep_tmc_active v2 vs mid delta hstep
        have htms_mid : tmsIn xs mid = true :=
          verifyFold_active_subset xs v2 hvpre mid hact
        obtain ⟨nm, tcs, hfind⟩ := ihC mid htms_mid
        have hnodup_ys : mid ∉ msgIds ys := by
          have hnd : (msgIds (ys ++ [m])).Nodup := by rw [← hys]; exact ihN
          unfold msgIds at hnd
          rw [List.map_append, List.nodup_append] at hnd
          intro hmem
          refine hnd.2.2 hmem ?_
          simp only [List.map_cons, List.map_nil, List.mem_singleton]
          have : m.id = mid := by simpa using hguard
          rw [this]
        have hfindm : findById st2.messages mid = some m := by
          unfold findById
          rw [hys, List.find?_append]
          rw [show List.find? (fun mm => mm.id == mid) ys = none from
            findById_eq_none_of_not_mem ys mid hnodup_ys]
          rw [Option.none_or]
          rw [@List.find?_cons_of_pos Message (fun mm => mm.id == mid) m [] hguard]
        have hm_eq : m = .assistant mid (some (concatDeltas xs mid)) nm tcs := by
          have := hfindm.symm.trans hfind
          simpa using this
        have hmsgs : st3.messages = ys ++ [m.contentPush delta] := by
          rw [← hhe]
          show updateLast st2.messages (fun mm => mm.contentPush delta) = _
          rw [hys, updateLast_append_singleton]
        have hpush : m.contentPush delta =
            .assistant mid (some (concatDeltas xs mid ++ delta)) nm tcs := by
          rw [hm_eq]
          rfl
        have hids : msgIds (ys ++ [m.contentPush delta]) = msgIds (ys ++ [m]) := by
          unfold msgIds
          rw [List.map_append, List.map_append]
          simp [contentPush_id]
        refine ⟨?_, ?_, ?_⟩
        · rw [hmsgs, hids, ← hys]
          exact ihN
        · intro id hid
          rw [tmsIn_snoc] at hid
          have h1 : tmsIn xs id = true := by simpa [isTmsFor] using hid
          rw [hmsgs, hids, ← hys]
          exact ihM id h1
        · intro id hid
          rw [tmsIn_snoc] at hid
          have h1 : tmsIn xs id = true := by simpa [isTmsFor] using hid
          rw [hmsgs, concatDeltas_snoc]
          by_cases hidm : mid = id
          · subst hidm
            rw [show tmcDeltaFor (.textMessageContent mid delta) mid = some delta from
              by simp [tmcDeltaFor]]
            simp only [Option.getD_some]
            unfold findById
            rw [List.find?_append]
            rw [show List.find? (fun mm => mm.id == mid) ys = none from
              findById_eq_none_of_not_mem ys mid hnodup_ys]
            rw [Option.none_or]
            have hp : ((m.contentPush delta).id == mid) = true := by
              rw [contentPush_id]
              exact hguard
            rw [@List.find?_cons_of_pos Message (fun mm => mm.id == mid)
              (m.contentPush delta) [] hp]
            exact ⟨nm, tcs, by rw [hpush]⟩
          · have hne : tmcDeltaFor (.textMessageContent mid delta) id = none := by
              simp [tmcDeltaFor, hidm]
            rw [hne]
            simp only [Option.getD_none, String.append_empty]
            have hmne : (m.id == id) = false := by
              have : m.id = mid := by simpa using hguard
              rw [this]
              simp [hidm]
            rw [findById_last_skip ys m (m.contentPush delta)
              (contentPush_id m delta) id hmne, ← hys]
            exact ihC id h1
      case toolCallStart tcid tcname parent =>
        simp only [handleEvent] at hhe
        cases hLast : st2.messages.getLast? with
        | some last =>
            simp only [hLast] at hhe
            by_cases hpm : some last.id = parent
            · rw [if_pos hpm] at hhe
              simp only [Except.ok.injEq] at hhe
              obtain ⟨ys, hys⟩ := List.getLast?_eq_some_iff.mp hLast
              have hmsgs : st3.messages =
                  ys ++ [last.pushToolCall ⟨tcid, "function", ⟨tcname, ""⟩⟩] := by
                rw [← hhe]
                show updateLast st2.messages
                  (fun mm => mm.pushToolCall ⟨tcid, "function", ⟨tcname, ""⟩⟩) = _
                rw [hys, updateLast_append_singleton]
              rw [hys] at ihN ihM ihC
              have := c3_step_updateLast xs (.toolCallStart tcid tcname parent) ys last
                (fun mm => mm.pushToolCall ⟨tcid, "function", ⟨tcname, ""⟩⟩)
                (pushToolCall_id last _)
                (by
                  intro i c nm tcs hlast
                  subst hlast
                  exact ⟨nm, some ((tcs.getD []) ++
                    [⟨tcid, "function", ⟨tcname, ""⟩⟩]),
                    pushToolCall_assistant i c nm tcs ⟨tcid, "function", ⟨tcname, ""⟩⟩⟩)
                (fun _ => rfl) (fun _ => rfl) ihN ihM ihC
              rw [hmsgs]
              exact this
            · rw [if_neg hpm] at hhe
              simp only [Except.ok.injEq] at hhe
              exact c3_preserve xs _ st2 st3 (by rw [← hhe]) (fun _ => rfl)
                (fun _ => rfl) ihN ihM ihC
        | none =>
            simp only [hLast, Except.ok.injEq] at hhe
            have hempty : st2.messages = [] := List.getLast?_eq_none_iff.mp hLast
            have hmsgs : st3.messages = [.assistant (parent.getD f) none none none] := by
              rw [← hhe]
              show st2.messages ++ [.assistant (parent.getD f) none none none] = _
              rw [hempty]
              rfl
            refine ⟨?_, ?_, ?_⟩
            · rw [hmsgs]
              simp [msgIds]
            · intro id hid
              rw [tmsIn_snoc] at hid
              have h1 : tmsIn xs id = true := by simpa [isTmsFor] using hid
              have := ihM id h1
              rw [hempty] at this
              simp [msgIds] at this
            · intro id hid
              rw [tmsIn_snoc] at hid
              have h1 : tmsIn xs id = true := by simpa [isTmsFor] using hid
              have := ihM id h1
              rw [hempty] at this
              simp [msgIds] at this
      case toolCallArgs tcid delta =>
        simp only [handleEvent, Except.ok.injEq] at hhe
        cases hLast : st2.messages.getLast? with
        | none =>
            have hempty : st2.messages = [] := List.getLast?_eq_none_iff.mp hLast
            have hmsg : st3.messages = st2.messages := by
              rw [← hhe]
              show updateLast st2.messages (fun mm => mm.applyToolCallArgsDelta delta) = _
              rw [hempty]
              rfl
            exact c3_preserve xs _ st2 st3 hmsg (fun _ => rfl) (fun _ => rfl)
              ihN ihM ihC
        | some last =>
            obtain ⟨ys, hys⟩ := List.getLast?_eq_some_iff.mp hLast
            have hmsgs : st3.messages = ys ++ [last.applyToolCallArgsDelta delta] := by
              rw [← hhe]
              show updateLast st2.messages (fun mm => mm.applyToolCallArgsDelta delta) = _
              rw [hys, updateLast_append_singleton]
            rw [hys] at ihN ihM ihC
            have := c3_step_updateLast xs (.toolCallArgs tcid delta) ys last
              (fun mm => mm.applyToolCallArgsDelta delta)
              (applyToolCallArgsDelta_id last delta)
              (by
                intro i c nm tcs hlast
                subst hlast
                obtain ⟨tcs2, heq⟩ := applyToolCallArgsDelta_assistant i c nm tcs delta
                exact ⟨nm, tcs2, heq⟩)
              (fun _ => rfl) (fun _ => rfl) ihN ihM ihC
            rw [hmsgs]
            exact this
      case stateDelta ops =>
        simp only [handleEvent] at hhe
        cases hp : jsonPatch st2.state ops with
        | some ns =>
            rw [hp] at hhe
            simp only [Except.ok.injEq] at hhe
            exact c3_preserve xs _ st2 st3 (by rw [← hhe]) (fun _ => rfl)
              (fun _ => rfl) ihN ihM ihC
        | none =>
            rw [hp] at hhe
            exact Except.noConfusion hhe
      all_goals
        simp only [handleEvent, Except.ok.injEq] at hhe
        exact c3_preserve xs _ st2 st3 (by rw [← hhe]) (fun _ => rfl)
          (fun _ => rfl) ihN ihM ihC

/-- C3 amended: starting from an empty message list, after any
verifier-accepted event sequence in which every `TEXT_MESSAGE_CONTENT`
targets the current last message and every `TEXT_MESSAGE_START` carries a
fresh id (the regime in which at most one text message is streamed at a
time), the content of the message with a `TEXT_MESSAGE_START`-introduced
id equals the concatenation, in arrival order, of the deltas of all
`TEXT_MESSAGE_CONTENT` events carrying that id. Without those two side
conditions the property fails (see the counterexample). -/
theorem text_message_content_concat_per_id (f : String) (events : List Event)
    (st : HandlerState) (id : String)
    (hver : verifierAccepts events = true)
    (hfold : guardedFold f ⟨[], Json.null, Json.null⟩ events = some st)
    (hstart : tmsIn events id = true) :
    (findById st.messages id).map Message.content =
      some (some (concatDeltas events id)) := by
  unfold verifierAccepts at hver
  cases hv : verifyFold VerifierState.initial events with
  | error err =>
      rw [hv] at hver
      exact absurd hver (by simp [exceptIsOk])
  | ok vs =>
      obtain ⟨-, -, hC⟩ := c3_invariant f events vs st hv hfold
      obtain ⟨nm, tcs, hfind⟩ := hC id hstart
      rw [hfind]
      rfl

/-- Witness for the amended C3: the spec's scenario-1 stream (one message,
two deltas) — the fold leaves message `m1` with content `"Hello world"`,
the concatenation of its deltas. -/
theorem text_message_content_concat_per_id_witness :
    verifierAccepts
      [.runStarted "t" "r", .textMessageStart "m1" "assistant",
       .textMessageContent "m1" "Hello ", .textMessageContent "m1" "world",
       .textMessageEnd "m1", .runFinished "t" "r" none] = true ∧
    guardedFold "f" ⟨[], Json.null, Json.null⟩
      [.runStarted "t" "r", .textMessageStart "m1" "assistant",
       .textMessageContent "m1" "Hello ", .textMessageContent "m1" "world",
       .textMessageEnd "m1", .runFinished "t" "r" none] =
      some ⟨[.assistant "m1" (some "Hello world") none none], Json.null, Json.null⟩ ∧
    (findById [Message.assistant "m1" (some "Hello world") none none] "m1").map
        Message.content =
      some (some (concatDeltas
        [.runStarted "t" "r", .textMessageStart "m1" "assistant",
         .textMessageContent "m1" "Hello ", .textMessageContent "m1" "world",
         .textMessageEnd "m1", .runFinished "t" "r" none] "m1")) :=
  ⟨rfl, rfl,
   text_message_content_concat_per_id "f"
     [.runStarted "t" "r", .textMessageStart "m1" "assistant",
      .textMessageContent "m1" "Hello ", .textMessageContent "m1" "world",
      .textMessageEnd "m1", .runFinished "t" "r" none]
     ⟨[.assistant "m1" (some "Hello world") none none], Json.null, Json.null⟩
     "m1" rfl rfl rfl⟩
